import Mathlib

/-!
Verification of the transfer-reconciliation engine of `solana-transfer-ledger`
(`src/transfer_parser.rs`).  The Rust code is shallowly embedded: `u64` values
are `Nat` with explicit wrap-around `% 2^64` where the Rust arithmetic wraps
(release semantics), `i64` values are `Int` constrained to the `i64` range by
the wrapping conversions `toI64` / `wrapS64`, and `Result<T>` is `Except String T`
(no code path of the parser ever produces an error value).

The token reconciler iterates over `std::collections::HashMap`s, whose
iteration order is unspecified and varies per map instance; that order is made
an explicit parameter (`postOrder`, `preOrder`, `mintOrder`), each required to
be a permutation of the corresponding key set.
-/

namespace SolanaLedger

/-! ## Machine-integer helpers -/

/-- The modulus `2^64` of `u64` arithmetic. -/
def U64MOD : Nat := 18446744073709551616

/-- The magnitude bound `2^63` of `i64`. -/
def I64BOUND : Nat := 9223372036854775808

/-- Wrapping `u64` arithmetic (release-profile semantics of overflow). -/
def wrap64 (n : Nat) : Nat := n % U64MOD

/-- The Rust cast `x as i64` applied to a `u64` value: reinterpret the low 64
bits as a signed two's-complement integer. -/
def toI64 (n : Nat) : Int :=
  if n % U64MOD < I64BOUND then (n % U64MOD : Nat) else (n % U64MOD : Nat) - (U64MOD : Nat)

/-- Wrap an integer into the `i64` range (two's complement), modelling
`i64` overflow under the release profile. -/
def wrapS64 (z : Int) : Int := (z + (I64BOUND : Nat)) % (U64MOD : Nat) - (I64BOUND : Nat)

/-- The Rust cast `z as u64` applied to an `i64` value: the low 64 bits as an
unsigned integer. -/
def i64ToU64 (z : Int) : Nat := (z % (U64MOD : Nat)).toNat

/-! ## Data model (mirrors the prost-generated protobuf structs used by
`transfer_parser.rs`) -/

/-- The `UiTokenAmount` struct: the raw amount is a decimal string. -/
structure UiTokenAmount where
  amount : String
  decimals : Nat
deriving Repr, DecidableEq

/-- The `TokenBalance` struct from `confirmed_block`. -/
structure TokenBalance where
  account_index : Nat
  mint : String
  ui_token_amount : Option UiTokenAmount
deriving Repr, DecidableEq

/-- The transaction `Message`: only `account_keys` is read by the parser. -/
structure Message where
  account_keys : List (List Nat)
deriving Repr, DecidableEq

/-- The `TransactionStatusMeta` struct: the fields read by the parser. -/
structure TransactionStatusMeta where
  pre_balances : List Nat
  post_balances : List Nat
  loaded_writable_addresses : List (List Nat)
  loaded_readonly_addresses : List (List Nat)
  pre_token_balances : List TokenBalance
  post_token_balances : List TokenBalance
deriving Repr, DecidableEq

/-- The raw `Transaction` inside `SubscribeUpdateTransactionInfo`; only its
optional `message` is read. -/
structure RawTransaction where
  message : Option Message
deriving Repr, DecidableEq

/-- The `SubscribeUpdateTransactionInfo` struct. -/
structure TransactionInfo where
  signature : List Nat
  transaction : Option RawTransaction
  meta : Option TransactionStatusMeta
deriving Repr, DecidableEq

/-- The `SubscribeUpdateTransaction` struct. -/
structure SubscribeUpdateTransaction where
  transaction : Option TransactionInfo
deriving Repr, DecidableEq

/-- The `SolTransfer` record (src/transfer_parser.rs lines 13-29). -/
structure SolTransfer where
  signature : String
  from_addr : String
  to_addr : String
  amount : Nat
  from_index : Nat
  to_index : Nat
  timestamp : Nat
deriving Repr, DecidableEq

/-- The `TokenTransfer` record (src/transfer_parser.rs lines 31-48). -/
structure TokenTransfer where
  signature : String
  from_addr : String
  to_addr : String
  amount : Nat
  mint : String
  decimals : Nat
  timestamp : Nat
deriving Repr, DecidableEq

/-- The `AccountBalanceChange` record (src/transfer_parser.rs lines 50-63). -/
structure AccountBalanceChange where
  index : Nat
  address : String
  change : Int
  pre_balance : Nat
  post_balance : Nat
deriving Repr, DecidableEq

instance : Inhabited AccountBalanceChange := ⟨⟨0, "", 0, 0, 0⟩⟩

/-! ## Base58 encoding (the `bs58` crate's `encode`) -/

/-- The Bitcoin base58 alphabet used by `bs58::encode`. -/
def BASE58_ALPHABET : List Char :=
  "123456789ABCDEFGHJKLMNPQRSTUVWXYZabcdefghijkmnopqrstuvwxyz".toList

/-- Digit `d < 58` to its base58 character. -/
def base58Char (d : Nat) : Char := BASE58_ALPHABET.getD d '1'

/-- Big-endian byte sequence as a natural number. -/
def bytesToNat (bs : List Nat) : Nat := bs.foldl (fun a b => a * 256 + b % 256) 0

/-- Base58 digit loop with explicit fuel (`n` itself is enough fuel, since the
argument strictly decreases under division by 58). -/
def base58DigitsAux : Nat → Nat → List Char
  | 0, _ => []
  | _, 0 => []
  | fuel + 1, n => base58DigitsAux fuel (n / 58) ++ [base58Char (n % 58)]

/-- Base58 digit string of a natural number (empty for zero). -/
def base58Digits (n : Nat) : List Char := base58DigitsAux n n

/-- Number of leading zero bytes, each rendered as `'1'` by `bs58`. -/
def countLeadingZeroBytes : List Nat → Nat
  | [] => 0
  | b :: bs => if b % 256 = 0 then countLeadingZeroBytes bs + 1 else 0

/-- The encoding `bs58::encode(bytes).into_string()`. -/
def bs58encode (bytes : List Nat) : String :=
  ⟨List.replicate (countLeadingZeroBytes bytes) '1' ++ base58Digits (bytesToNat bytes)⟩

/-! ## `u64::from_str` for token raw amounts -/

/-- Decimal digit of a character, if any. -/
def decDigit (c : Char) : Option Nat :=
  if '0' ≤ c ∧ c ≤ '9' then some (c.toNat - '0'.toNat) else none

/-- Digit-sequence part of `u64::from_str`: one or more decimal digits whose
value fits `u64`. -/
def parseDigits (cs : List Char) : Option Nat :=
  if cs.isEmpty then none
  else
    (cs.foldl (fun acc c => acc.bind (fun n => (decDigit c).map (fun d => n * 10 + d)))
        (some 0)).bind
      (fun n => if n < U64MOD then some n else none)

/-- The parse `str::parse::<u64>()`: optional leading `'+'`, then one or more decimal
digits, value below `2^64`. -/
def parseU64 (s : String) : Option Nat :=
  parseDigits
    (match s.toList with
     | '+' :: rest => rest
     | cs => cs)

/-! ## Address resolution

`account_addresses.get(index).map(clone).unwrap_or_else(|| format!("unknown_{}", index))`,
the pattern used at every address-resolution site of the parser. -/

/-- Resolve a balance-array index against the account universe, falling back to
the synthetic placeholder. -/
def resolveAddress (account_addresses : List String) (index : Nat) : String :=
  (account_addresses.get? index).getD ("unknown_" ++ Nat.repr index)

/-! ## `build_complete_account_list` (lines 166-189) -/

/-- Concatenate static account keys, loaded writable addresses, loaded readonly
addresses, each base58-encoded.  The Rust function returns `Result` but never
errs. -/
def build_complete_account_list (message : Message) (meta : TransactionStatusMeta) :
    List String :=
  message.account_keys.map bs58encode ++
    meta.loaded_writable_addresses.map bs58encode ++
    meta.loaded_readonly_addresses.map bs58encode

/-! ## `analyze_balance_changes` (lines 191-243) -/

/-- The enumerated zip loop of `analyze_balance_changes`: walk `pre`/`post`
pairs with their index, keeping entries whose wrapped `i64` difference is
nonzero. -/
def buildChanges (account_addresses : List String) : Nat → List Nat → List Nat →
    List AccountBalanceChange
  | _, [], _ => []
  | _, _, [] => []
  | index, pre :: ps, post :: qs =>
    let change := wrapS64 (toI64 post - toI64 pre)
    (if change ≠ 0 then
      [{ index := index
         address := resolveAddress account_addresses index
         change := change
         pre_balance := pre
         post_balance := post }]
     else []) ++ buildChanges account_addresses (index + 1) ps qs

/-- The function `analyze_balance_changes`: guard the two length conditions, then collect
nonzero deltas.  The Rust function returns `Result` but never errs. -/
def analyze_balance_changes (account_addresses : List String)
    (meta : TransactionStatusMeta) : List AccountBalanceChange :=
  if meta.pre_balances.length ≠ meta.post_balances.length then []
  else if account_addresses.length < meta.pre_balances.length then []
  else buildChanges account_addresses 0 meta.pre_balances meta.post_balances

/-! ## `is_matching_transfer` (lines 485-510) -/

/-- Maximum absorbed network fee: 0.01 SOL in lamports. -/
def MAX_GAS_FEE : Nat := 10000000

/-- Pass A's tolerance test between a sender magnitude and a receiver
magnitude. -/
def is_matching_transfer (send_amount receive_amount : Nat) : Bool :=
  if send_amount = receive_amount then true
  else if send_amount > receive_amount ∧ send_amount - receive_amount ≤ MAX_GAS_FEE then
    true
  else if send_amount > receive_amount then
    decide ((send_amount - receive_amount) ≤ max (send_amount / 100) MAX_GAS_FEE)
  else false

/-! ## `extract_transfers` (lines 245-483)

The four matching passes.  `used_senders` / `used_receivers` are the two
boolean vectors of the source; they are threaded explicitly.  The check
`if used_senders[i] { continue; }` at the head of Pass A is dead (a sender's
flag can only have been set in its own earlier iteration) and is omitted. -/

/-- The cast `(-sender.change) as u64` (the `i64` negation wraps at `i64::MIN`). -/
def sendAmtOf (s : AccountBalanceChange) : Nat := i64ToU64 (wrapS64 (-s.change))

/-- The cast `receiver.change as u64`. -/
def recvAmtOf (r : AccountBalanceChange) : Nat := i64ToU64 r.change

/-- Pass A inner loop: index of the first receiver that is unused and within
tolerance of `send`. -/
def findRecvIdxAux (send : Nat) : List (Bool × AccountBalanceChange) → Option Nat
  | [] => none
  | (u, r) :: rest =>
    if u = false ∧ is_matching_transfer send (recvAmtOf r) = true then some 0
    else (findRecvIdxAux send rest).map (· + 1)

/-- Pass A inner loop over the receivers with their used-flags. -/
def findRecvIdx (send : Nat) (usedR : List Bool) (receivers : List AccountBalanceChange) :
    Option Nat :=
  findRecvIdxAux send (usedR.zip receivers)

/-- Pass A (lines 285-326): first-fit tolerant 1:1 matching.  Returns the
sender used-flags, the updated receiver used-flags, and the emitted
transfers. -/
def passA (sig : String) (ts : Nat) (receivers : List AccountBalanceChange) :
    List AccountBalanceChange → List Bool → List Bool × List Bool × List SolTransfer
  | [], usedR => ([], usedR, [])
  | s :: rest, usedR =>
    let send := sendAmtOf s
    match findRecvIdx send usedR receivers with
    | some j =>
      let r := receivers.getD j default
      let t : SolTransfer :=
        ⟨sig, s.address, r.address, recvAmtOf r, s.index, r.index, ts⟩
      let res := passA sig ts receivers rest (usedR.set j true)
      (true :: res.1, res.2.1, t :: res.2.2)
    | none =>
      let res := passA sig ts receivers rest usedR
      (false :: res.1, res.2.1, res.2.2)

/-- Pass B candidate collection (lines 337-347): unused receivers whose amount
is at most 150% of the sender's amount and at least the dust floor.  Entries
are `(receiver index, receiver, receiver amount)`. -/
def candListB (send : Nat) : Nat → List Bool → List AccountBalanceChange →
    List (Nat × AccountBalanceChange × Nat)
  | _, [], _ => []
  | _, _, [] => []
  | j, u :: us, r :: rs =>
    let recv := recvAmtOf r
    (if u = false ∧ recv ≤ wrap64 (send * 15) / 10 ∧ 100000 ≤ recv then [(j, r, recv)]
     else []) ++ candListB send (j + 1) us rs

/-- Stable insertion step for the descending sort by candidate amount. -/
def insertDescBy (x : Nat × AccountBalanceChange × Nat) :
    List (Nat × AccountBalanceChange × Nat) → List (Nat × AccountBalanceChange × Nat)
  | [] => [x]
  | y :: ys => if y.2.2 ≤ x.2.2 then x :: y :: ys else y :: insertDescBy x ys

/-- Stable sort, amounts descending: `sort_by(|a, b| b.2.cmp(&a.2))`
(`Vec::sort_by` is stable; equal amounts keep discovery order). -/
def sortDescBy : List (Nat × AccountBalanceChange × Nat) →
    List (Nat × AccountBalanceChange × Nat)
  | [] => []
  | x :: xs => insertDescBy x (sortDescBy xs)

/-- Pass B greedy consumption (lines 352-382) for one sender. -/
def passBGreedy (sig : String) (ts : Nat) (sender : AccountBalanceChange) :
    List (Nat × AccountBalanceChange × Nat) → Nat → List Bool →
    Nat × List Bool × List SolTransfer
  | [], rem, usedR => (rem, usedR, [])
  | (j, r, recv) :: rest, rem, usedR =>
    if rem < 100000 then (rem, usedR, [])
    else if recv ≤ wrap64 (rem * 11) / 10 then
      let t : SolTransfer := ⟨sig, sender.address, r.address, recv, sender.index, r.index, ts⟩
      let res := passBGreedy sig ts sender rest (rem - recv) (usedR.set j true)
      (res.1, res.2.1, t :: res.2.2)
    else passBGreedy sig ts sender rest rem usedR

/-- Pass B (lines 328-387): one sender to many receivers.  Walks the senders
with the used-flags produced by Pass A, threading the receiver flags. -/
def passB (sig : String) (ts : Nat) (receivers : List AccountBalanceChange) :
    List (Bool × AccountBalanceChange) → List Bool →
    List Bool × List Bool × List SolTransfer
  | [], usedR => ([], usedR, [])
  | (us, s) :: rest, usedR =>
    if us then
      let res := passB sig ts receivers rest usedR
      (true :: res.1, res.2.1, res.2.2)
    else
      let send := sendAmtOf s
      let cands := sortDescBy (candListB send 0 usedR receivers)
      let g := passBGreedy sig ts s cands send usedR
      let res := passB sig ts receivers rest g.2.1
      (decide (g.1 < send / 2) :: res.1, res.2.1, g.2.2 ++ res.2.2)

/-- Pass C candidate collection (lines 398-407): unused senders above the dust
floor, as `(sender index, sender, sender amount)`. -/
def candListC : Nat → List Bool → List AccountBalanceChange →
    List (Nat × AccountBalanceChange × Nat)
  | _, [], _ => []
  | _, _, [] => []
  | i, u :: us, s :: ss =>
    let send := sendAmtOf s
    (if u = false ∧ 100000 ≤ send then [(i, s, send)] else []) ++ candListC (i + 1) us ss

/-- Pass C greedy consumption (lines 412-446) for one receiver: each candidate
contributes `used_amount = min(send, rem*11/10)` and the emitted amount is
`min(used_amount, rem)`. -/
def passCGreedy (sig : String) (ts : Nat) (receiver : AccountBalanceChange) :
    List (Nat × AccountBalanceChange × Nat) → Nat → List Bool →
    Nat × List Bool × List SolTransfer
  | [], rem, usedS => (rem, usedS, [])
  | (i, s, send) :: rest, rem, usedS =>
    if rem < 100000 then (rem, usedS, [])
    else
      let used_amount := min send (wrap64 (rem * 11) / 10)
      let t : SolTransfer :=
        ⟨sig, s.address, receiver.address, min used_amount rem, s.index, receiver.index, ts⟩
      let rem2 := rem - min used_amount rem
      let usedS2 := if wrap64 (send * 8) / 10 ≤ used_amount then usedS.set i true else usedS
      let res := passCGreedy sig ts receiver rest rem2 usedS2
      (res.1, res.2.1, t :: res.2.2)

/-- Pass C (lines 389-451): many senders to one receiver.  Walks the receivers
with the flags produced by Pass B, threading the sender flags; returns the
updated sender flags, the receiver flags, and the transfers. -/
def passC (sig : String) (ts : Nat) (senders : List AccountBalanceChange) :
    List (Bool × AccountBalanceChange) → List Bool →
    List Bool × List Bool × List SolTransfer
  | [], usedS => (usedS, [], [])
  | (ur, r) :: rest, usedS =>
    if ur then
      let res := passC sig ts senders rest usedS
      (res.1, true :: res.2.1, res.2.2)
    else
      let recv := recvAmtOf r
      let cands := sortDescBy (candListC 0 usedS senders)
      let g := passCGreedy sig ts r cands recv usedS
      let res := passC sig ts senders rest g.2.1
      (res.1, decide (g.1 < recv / 2) :: res.2.1, g.2.2 ++ res.2.2)

/-- Pass D sender search (lines 457-458): the first sender that is unused and
above the (strict) dust floor. -/
def firstFallbackSender (usedS : List Bool) (senders : List AccountBalanceChange) :
    Option AccountBalanceChange :=
  ((usedS.zip senders).find? (fun p => !p.1 && decide (100000 < sendAmtOf p.2))).map (·.2)

/-- Pass D (lines 453-480): each still-unmatched receiver above `1_000_000` is
paired with the first eligible sender; no flags are updated and no amounts are
decremented. -/
def passD (sig : String) (ts : Nat) (usedS : List Bool)
    (senders : List AccountBalanceChange) :
    List (Bool × AccountBalanceChange) → List SolTransfer
  | [] => []
  | (ur, r) :: rest =>
    (if ur = false ∧ 1000000 < r.change then
      match firstFallbackSender usedS senders with
      | some s => [⟨sig, s.address, r.address, recvAmtOf r, s.index, r.index, ts⟩]
      | none => []
     else []) ++ passD sig ts usedS senders rest

/-- The function `extract_transfers` (lines 245-483): partition the nonzero deltas, bail out
when there is no receiver, then run the four passes in order, concatenating
their records in emission order. -/
def extract_transfers (balance_changes : List AccountBalanceChange)
    (signature : List Nat) (ts : Nat) : List SolTransfer :=
  let sig := bs58encode signature
  let senders := balance_changes.filter (fun c => decide (c.change < 0))
  let receivers := balance_changes.filter (fun c => decide (0 < c.change))
  if receivers.isEmpty then []
  else
    let rA := passA sig ts receivers senders (List.replicate receivers.length false)
    let rB := passB sig ts receivers (rA.1.zip senders) rA.2.1
    let rC := passC sig ts senders (rB.2.1.zip receivers) rB.1
    let tD := passD sig ts rC.1 senders (rC.2.1.zip receivers)
    rA.2.2 ++ rB.2.2 ++ rC.2.2 ++ tD

/-- The function `parse_sol_transfers` (lines 69-108).  Every missing-data branch returns
`Ok(vec![])`; no branch of the function errors. -/
def parse_sol_transfers (transaction_update : SubscribeUpdateTransaction)
    (timestamp : Nat) : Except String (List SolTransfer) :=
  match transaction_update.transaction with
  | none => .ok []
  | some tx_info =>
    match tx_info.meta with
    | none => .ok []
    | some meta =>
      match tx_info.transaction with
      | none => .ok []
      | some raw_tx =>
        match raw_tx.message with
        | none => .ok []
        | some message =>
          let account_addresses := build_complete_account_list message meta
          let balance_changes := analyze_balance_changes account_addresses meta
          .ok (extract_transfers balance_changes tx_info.signature timestamp)

/-! ## `analyze_token_balance_changes` (lines 512-799)

The Rust function builds two `HashMap`s keyed by `(account_index, mint)`
(later inserts overwrite earlier ones) and then iterates them, and later
iterates a `HashMap` of mint groups.  `HashMap` iteration order is unspecified
and differs between map instances, so the three iteration orders are explicit
parameters; validity (being a permutation of the key set) is stated
separately. -/

/-- The map key `(tb.account_index, tb.mint.clone())`. -/
def tbKey (tb : TokenBalance) : Nat × String := (tb.account_index, tb.mint)

/-- The lookup `HashMap::get` on the map collected from `l` (last insert wins). -/
def mapLookup (l : List TokenBalance) (k : Nat × String) : Option TokenBalance :=
  l.reverse.find? (fun tb => decide (tbKey tb = k))

/-- The key set of the map collected from `l` (first occurrences). -/
def keysOf (l : List TokenBalance) : List (Nat × String) := (l.map tbKey).dedup

/-- One recorded balance change `(account_index, mint, change, decimals)`. -/
structure TokenChangeEntry where
  account_index : Nat
  mint : String
  change : Int
  decimals : Nat
deriving Repr, DecidableEq

/-- Body of the `post_map` iteration (lines 556-598) at key `k`: diff an
account present in both snapshots, or register a newly created account. -/
def diffEntryPost (preL postL : List TokenBalance) (k : Nat × String) :
    List TokenChangeEntry :=
  match mapLookup postL k with
  | none => []
  | some postB =>
    match mapLookup preL k with
    | some preB =>
      if preB.mint = postB.mint then
        match preB.ui_token_amount, postB.ui_token_amount with
        | some preA, some postA =>
          match parseU64 preA.amount, parseU64 postA.amount with
          | some preRaw, some postRaw =>
            if preRaw ≠ postRaw then
              if wrapS64 (toI64 postRaw - toI64 preRaw) ≠ 0 then
                [⟨k.1, k.2, wrapS64 (toI64 postRaw - toI64 preRaw), postA.decimals⟩]
              else []
            else []
          | _, _ => []
        | _, _ => []
      else []
    | none =>
      match postB.ui_token_amount with
      | some postA =>
        match parseU64 postA.amount with
        | some postRaw =>
          if 0 < postRaw then [⟨k.1, k.2, toI64 postRaw, postA.decimals⟩] else []
        | none => []
      | none => []

/-- Body of the `pre_map` iteration (lines 600-616) at key `k`: register a
closed token account (key absent from `post_map`). -/
def diffEntryPre (preL postL : List TokenBalance) (k : Nat × String) :
    List TokenChangeEntry :=
  if (postL.map tbKey).contains k then []
  else
    match mapLookup preL k with
    | none => []
    | some preB =>
      match preB.ui_token_amount with
      | some preA =>
        match parseU64 preA.amount with
        | some preRaw =>
          if 0 < preRaw then [⟨k.1, k.2, wrapS64 (-(toI64 preRaw)), preA.decimals⟩] else []
        | none => []
      | none => []

/-- The `balance_changes` vector: post-map iteration entries, then pre-map
iteration entries, in the given iteration orders. -/
def tokenBalanceChanges (preL postL : List TokenBalance)
    (postOrder preOrder : List (Nat × String)) : List TokenChangeEntry :=
  postOrder.flatMap (diffEntryPost preL postL) ++ preOrder.flatMap (diffEntryPre preL postL)

/-- The `mint_groups` map (lines 618-623): the group of a mint, in discovery order,
projected to `(account_index, change, decimals)`. -/
def mintGroup (bcs : List TokenChangeEntry) (m : String) : List (Nat × Int × Nat) :=
  (bcs.filter (fun e => decide (e.mint = m))).map
    (fun e => (e.account_index, e.change, e.decimals))

/-- The mint set of the group map (first occurrences). -/
def mintsOf (bcs : List TokenChangeEntry) : List String := (bcs.map (·.mint)).dedup

/-- The ratio test `ratio <= 10.0` of the matching heuristics, where
`ratio = max(a,b)/min(a,b)` as the source computes with `f64` division of
exactly-representable magnitudes; modelled exactly over the rationals by
cross-multiplication. -/
def ratioLE10 (a b : Nat) : Bool := decide (max a b ≤ 10 * min a b)

/-- Comparison `ratio(a,b) < ratio(c,d)` by cross-multiplication (the source compares the
`f64` ratios). -/
def ratioLt (a b c d : Nat) : Bool := decide (max a b * min c d < max c d * min a b)

/-- Lines 681-702: scan the enumerated decreases for the unused one minimizing
the ratio against `to_amount`, subject to `ratio <= 10.0`.  The accumulator
holds `(decrease position, from_index, from_amount)` of the best so far
(`best_ratio` starts at infinity, so with no best yet only `ratio <= 10.0` is
required). -/
def bestDecAux (to_amount : Nat) :
    List (Bool × (Nat × (Nat × Int × Nat))) → Option (Nat × Nat × Nat) →
    Option (Nat × Nat × Nat)
  | [], best => best
  | (u, (i, (fa, fc, _))) :: rest, best =>
    if u then bestDecAux to_amount rest best
    else
      let from_amount := i64ToU64 (wrapS64 (-fc))
      let takes := match best with
        | none => ratioLE10 from_amount to_amount
        | some b =>
          ratioLE10 from_amount to_amount && ratioLt from_amount to_amount b.2.2 to_amount
      if takes then bestDecAux to_amount rest (some (i, fa, from_amount))
      else bestDecAux to_amount rest best

/-- The multi-match case (lines 675-733): for each increase in discovery
order, consume the best-ratio unused decrease and emit a transfer with the
increase's amount. -/
def multiMatch (addrs : List String) (sig : String) (ts : Nat) (m : String)
    (decreases : List (Nat × Int × Nat)) :
    List (Nat × Int × Nat) → List Bool → List TokenTransfer
  | [], _ => []
  | (ta, tc, d) :: rest, usedD =>
    match bestDecAux (i64ToU64 tc) (usedD.zip decreases.enum) none with
    | some (i, fa, _) =>
      ⟨sig, resolveAddress addrs fa, resolveAddress addrs ta, i64ToU64 tc, m, d, ts⟩ ::
        multiMatch addrs sig ts m decreases rest (usedD.set i true)
    | none => multiMatch addrs sig ts m decreases rest usedD

/-- The increases-only case (lines 735-764): each increase of at least one raw
unit becomes a `MINT/AIRDROP` record. -/
def mintOnly (addrs : List String) (sig : String) (ts : Nat) (m : String) :
    List (Nat × Int × Nat) → List TokenTransfer
  | [] => []
  | (ta, tc, d) :: rest =>
    (if 0 < i64ToU64 tc then
      (if 1 ≤ i64ToU64 tc then
        [⟨sig, "MINT/AIRDROP", resolveAddress addrs ta, i64ToU64 tc, m, d, ts⟩]
       else [])
     else []) ++ mintOnly addrs sig ts m rest

/-- The decreases-only case (lines 766-795): each decrease of at least one raw
unit becomes a `BURN/DESTROY` record. -/
def burnOnly (addrs : List String) (sig : String) (ts : Nat) (m : String) :
    List (Nat × Int × Nat) → List TokenTransfer
  | [] => []
  | (fa, fc, d) :: rest =>
    (if 0 < i64ToU64 (wrapS64 (-fc)) then
      (if 1 ≤ i64ToU64 (wrapS64 (-fc)) then
        [⟨sig, resolveAddress addrs fa, "BURN/DESTROY", i64ToU64 (wrapS64 (-fc)), m, d, ts⟩]
       else [])
     else []) ++ burnOnly addrs sig ts m rest

/-- Per-mint dispatch (lines 626-796): split a mint group into increases and
decreases (discovery order preserved) and apply the four cases. -/
def processMint (addrs : List String) (sig : String) (ts : Nat) (m : String)
    (changes : List (Nat × Int × Nat)) : List TokenTransfer :=
  let increases := changes.filter (fun c => decide (0 < c.2.1))
  let decreases := changes.filter (fun c => decide (c.2.1 < 0))
  match increases, decreases with
  | [(ta, tc, d)], [(fa, fc, _)] =>
    let to_amount := i64ToU64 tc
    let from_amount := i64ToU64 (wrapS64 (-fc))
    if from_amount / 10 ≤ to_amount ∧ to_amount ≤ wrap64 (from_amount * 10) then
      [⟨sig, resolveAddress addrs fa, resolveAddress addrs ta, to_amount, m, d, ts⟩]
    else []
  | incs, decs =>
    if incs ≠ [] ∧ decs ≠ [] then
      multiMatch addrs sig ts m decs incs (List.replicate decs.length false)
    else if incs ≠ [] then mintOnly addrs sig ts m incs
    else if decs ≠ [] then burnOnly addrs sig ts m decs
    else []

/-- The function `analyze_token_balance_changes` (lines 512-799): build the balance-change
vector from the two map iterations, group by mint, and process each mint group
in the group map's iteration order, pushing all records into one vector.  The
Rust function returns `Result` but never errs. -/
def analyze_token_balance_changes (account_addresses : List String)
    (preL postL : List TokenBalance) (signature : List Nat) (ts : Nat)
    (postOrder preOrder : List (Nat × String)) (mintOrder : List String) :
    List TokenTransfer :=
  let sig := bs58encode signature
  let bcs := tokenBalanceChanges preL postL postOrder preOrder
  mintOrder.foldl
    (fun acc m => acc ++ processMint account_addresses sig ts m (mintGroup bcs m)) []

/-- Validity of an iteration order for the map collected from `l`: it
enumerates each key exactly once. -/
def validKeyOrder (l : List TokenBalance) (o : List (Nat × String)) : Prop :=
  o.Perm (keysOf l)

/-- Validity of the `mint_groups` iteration order. -/
def validMintOrder (bcs : List TokenChangeEntry) (o : List String) : Prop :=
  o.Perm (mintsOf bcs)

/-- The function `parse_token_transfers` (lines 110-164).  Every missing-data branch
returns `Ok(vec![])`; no branch errors. -/
def parse_token_transfers (transaction_update : SubscribeUpdateTransaction)
    (timestamp : Nat) (postOrder preOrder : List (Nat × String))
    (mintOrder : List String) : Except String (List TokenTransfer) :=
  match transaction_update.transaction with
  | none => .ok []
  | some tx_info =>
    match tx_info.meta with
    | none => .ok []
    | some meta =>
      match tx_info.transaction with
      | none => .ok []
      | some raw_tx =>
        match raw_tx.message with
        | none => .ok []
        | some message =>
          let account_addresses := build_complete_account_list message meta
          if meta.pre_token_balances.isEmpty ∧ meta.post_token_balances.isEmpty then
            .ok []
          else
            .ok (analyze_token_balance_changes account_addresses
              meta.pre_token_balances meta.post_token_balances
              tx_info.signature timestamp postOrder preOrder mintOrder)

/-! ## Supporting lemmas -/

/-- With no balance changes, no transfers are extracted. -/
lemma extract_transfers_nil (sigb : List Nat) (ts : Nat) :
    extract_transfers [] sigb ts = [] := rfl

/-- Either guard of `analyze_balance_changes` yields the empty result. -/
lemma analyze_balance_changes_guard (addrs : List String) (meta : TransactionStatusMeta)
    (h : meta.pre_balances.length ≠ meta.post_balances.length ∨
      addrs.length < meta.pre_balances.length) :
    analyze_balance_changes addrs meta = [] := by
  unfold analyze_balance_changes
  rcases h with h | h
  · simp [h]
  · rcases eq_or_ne meta.pre_balances.length meta.post_balances.length with he | he
    · have h2 : addrs.length < meta.post_balances.length := he ▸ h
      simp [he, h2]
    · simp [he]

/-- With all four layers present, `parse_sol_transfers` reduces to the
pipeline. -/
lemma parse_sol_transfers_some (tu : SubscribeUpdateTransaction) (ts : Nat)
    (txi : TransactionInfo) (meta : TransactionStatusMeta) (raw : RawTransaction)
    (msg : Message) (h1 : tu.transaction = some txi) (h2 : txi.meta = some meta)
    (h3 : txi.transaction = some raw) (h4 : raw.message = some msg) :
    parse_sol_transfers tu ts =
      .ok (extract_transfers
        (analyze_balance_changes (build_complete_account_list msg meta) meta)
        txi.signature ts) := by
  simp [parse_sol_transfers, h1, h2, h3, h4]

/-- Guarded `parse_sol_transfers` is the empty `Ok`. -/
lemma parse_sol_transfers_guard (tu : SubscribeUpdateTransaction) (ts : Nat)
    (txi : TransactionInfo) (meta : TransactionStatusMeta) (raw : RawTransaction)
    (msg : Message) (h1 : tu.transaction = some txi) (h2 : txi.meta = some meta)
    (h3 : txi.transaction = some raw) (h4 : raw.message = some msg)
    (h5 : meta.pre_balances.length ≠ meta.post_balances.length ∨
      (build_complete_account_list msg meta).length < meta.pre_balances.length) :
    parse_sol_transfers tu ts = .ok [] := by
  rw [parse_sol_transfers_some tu ts txi meta raw msg h1 h2 h3 h4,
    analyze_balance_changes_guard _ _ h5, extract_transfers_nil]

/-! ## Claim C3 -/

/-- Claim C3: for every transaction update in which the transaction body, the
metadata, the raw transaction, or the message is absent, both
`parse_sol_transfers` and `parse_token_transfers` return an empty transfer
list and do not return an error. -/
theorem C3_missing_data (tu : SubscribeUpdateTransaction) (ts : Nat)
    (postOrder preOrder : List (Nat × String)) (mintOrder : List String)
    (h : tu.transaction = none ∨
      ∃ txi, tu.transaction = some txi ∧
        (txi.meta = none ∨ txi.transaction = none ∨
          ∃ raw, txi.transaction = some raw ∧ raw.message = none)) :
    parse_sol_transfers tu ts = .ok [] ∧
    parse_token_transfers tu ts postOrder preOrder mintOrder = .ok [] := by
  constructor
  · rcases h with h | ⟨txi, htxi, h⟩
    · simp [parse_sol_transfers, h]
    · rcases h with hm | hr | ⟨raw, hraw, hmsg⟩
      · simp [parse_sol_transfers, htxi, hm]
      · cases hmeta : txi.meta with
        | none => simp [parse_sol_transfers, htxi, hmeta]
        | some m => simp [parse_sol_transfers, htxi, hmeta, hr]
      · cases hmeta : txi.meta with
        | none => simp [parse_sol_transfers, htxi, hmeta]
        | some m => simp [parse_sol_transfers, htxi, hmeta, hraw, hmsg]
  · rcases h with h | ⟨txi, htxi, h⟩
    · simp [parse_token_transfers, h]
    · rcases h with hm | hr | ⟨raw, hraw, hmsg⟩
      · simp [parse_token_transfers, htxi, hm]
      · cases hmeta : txi.meta with
        | none => simp [parse_token_transfers, htxi, hmeta]
        | some m => simp [parse_token_transfers, htxi, hmeta, hr]
      · cases hmeta : txi.meta with
        | none => simp [parse_token_transfers, htxi, hmeta]
        | some m => simp [parse_token_transfers, htxi, hmeta, hraw, hmsg]

/-- Witness for C3 at a concrete update with no transaction body. -/
theorem C3_missing_data_witness :
    parse_sol_transfers ⟨none⟩ 7 = .ok [] ∧
    parse_token_transfers ⟨none⟩ 7 [] [] [] = .ok [] :=
  C3_missing_data ⟨none⟩ 7 [] [] [] (Or.inl rfl)

/-! ## Claim C4 -/

/-- Claim C4: whenever `preBalances` and `postBalances` have different lengths,
or the account universe has fewer entries than the balance arrays, the native
reconciler returns an empty transfer list and never raises a hard error. -/
theorem C4_length_mismatch (tu : SubscribeUpdateTransaction) (ts : Nat)
    (txi : TransactionInfo) (meta : TransactionStatusMeta) (raw : RawTransaction)
    (msg : Message) (h1 : tu.transaction = some txi) (h2 : txi.meta = some meta)
    (h3 : txi.transaction = some raw) (h4 : raw.message = some msg)
    (h5 : meta.pre_balances.length ≠ meta.post_balances.length ∨
      (build_complete_account_list msg meta).length < meta.pre_balances.length) :
    parse_sol_transfers tu ts = .ok [] :=
  parse_sol_transfers_guard tu ts txi meta raw msg h1 h2 h3 h4 h5

/-- Witness for C4: a two-entry `preBalances` against a one-entry
`postBalances`. -/
theorem C4_length_mismatch_witness :
    parse_sol_transfers
      ⟨some ⟨[1], some ⟨some ⟨[[2], [3]]⟩⟩, some ⟨[5, 6], [5], [], [], [], []⟩⟩⟩ 3 =
      .ok [] :=
  C4_length_mismatch _ 3 _ _ _ _ rfl rfl rfl rfl (Or.inl (by decide))

/-! ## Claim C5 -/

/-- Position `k` of the used-flag/receiver pair list is an admissible Pass A
match for a sender magnitude `send`: unused and within tolerance.  Out-of-range
positions are never admissible (the default flag is `true`). -/
def passAHit (send : Nat) (pairs : List (Bool × AccountBalanceChange)) (k : Nat) : Prop :=
  (pairs.getD k (true, default)).1 = false ∧
    is_matching_transfer send (recvAmtOf (pairs.getD k (true, default)).2) = true

/-- The Pass A inner scan returns exactly the least admissible position. -/
lemma findRecvIdxAux_iff (send : Nat) :
    ∀ (pairs : List (Bool × AccountBalanceChange)) (j : Nat),
      findRecvIdxAux send pairs = some j ↔
        (passAHit send pairs j ∧ ∀ k < j, ¬ passAHit send pairs k) := by
  intro pairs
  induction pairs with
  | nil =>
    intro j
    constructor
    · intro h
      simp [findRecvIdxAux] at h
    · rintro ⟨⟨hp, _⟩, _⟩
      simp [List.getD] at hp
  | cons p rest ih =>
    obtain ⟨u, r⟩ := p
    intro j
    by_cases hc : u = false ∧ is_matching_transfer send (recvAmtOf r) = true
    · rw [findRecvIdxAux, if_pos hc]
      constructor
      · intro h
        injection h with h
        subst h
        exact ⟨⟨hc.1, hc.2⟩, by omega⟩
      · rintro ⟨hPj, hmin⟩
        cases j with
        | zero => rfl
        | succ j0 =>
          exact absurd (show passAHit send ((u, r) :: rest) 0 from ⟨hc.1, hc.2⟩)
            (hmin 0 (Nat.succ_pos _))
    · rw [findRecvIdxAux, if_neg hc]
      constructor
      · intro h
        obtain ⟨j0, hj0, hj⟩ := Option.map_eq_some'.mp h
        subst hj
        obtain ⟨hP, hmin⟩ := (ih j0).mp hj0
        refine ⟨hP, ?_⟩
        intro k hk
        cases k with
        | zero => exact fun hk0 => hc ⟨hk0.1, hk0.2⟩
        | succ k0 => exact hmin k0 (by omega)
      · rintro ⟨hPj, hmin⟩
        cases j with
        | zero => exact absurd ⟨hPj.1, hPj.2⟩ hc
        | succ j0 =>
          have : findRecvIdxAux send rest = some j0 :=
            (ih j0).mpr ⟨hPj, fun k hk => hmin (k + 1) (by omega)⟩
          simp [this]

/-- Claim C5: in native Pass A an unmatched sender matches the first unmatched
receiver in iteration order if and only if `sendAmount == receiveAmount`, or
`sendAmount > receiveAmount` and
`sendAmount - receiveAmount <= max(sendAmount/100, 10_000_000)`; on a match
one transfer `{from: sender, to: receiver, amount: receiveAmount}` is emitted
and both parties are marked used. -/
theorem C5_passA_first_fit :
    (∀ send recv : Nat, is_matching_transfer send recv = true ↔
        (send = recv ∨ (recv < send ∧ send - recv ≤ max (send / 100) 10000000)))
  ∧ (∀ (send : Nat) (usedR : List Bool) (receivers : List AccountBalanceChange) (j : Nat),
        findRecvIdx send usedR receivers = some j ↔
          (passAHit send (usedR.zip receivers) j ∧
            ∀ k < j, ¬ passAHit send (usedR.zip receivers) k))
  ∧ (∀ (sig : String) (ts : Nat) (receivers : List AccountBalanceChange)
        (s : AccountBalanceChange) (rest : List AccountBalanceChange)
        (usedR : List Bool) (j : Nat),
        findRecvIdx (sendAmtOf s) usedR receivers = some j →
        passA sig ts receivers (s :: rest) usedR =
          (true :: (passA sig ts receivers rest (usedR.set j true)).1,
           (passA sig ts receivers rest (usedR.set j true)).2.1,
           ⟨sig, s.address, (receivers.getD j default).address,
             recvAmtOf (receivers.getD j default), s.index,
             (receivers.getD j default).index, ts⟩ ::
             (passA sig ts receivers rest (usedR.set j true)).2.2)) := by
  refine ⟨?_, ?_, ?_⟩
  · intro send recv
    unfold is_matching_transfer MAX_GAS_FEE
    split_ifs with h1 h2 h3 <;> simp_all <;> omega
  · intro send usedR receivers j
    exact findRecvIdxAux_iff send (usedR.zip receivers) j
  · intro sig ts receivers s rest usedR j hj
    simp [passA, hj]

/-- Sender for the C5 witness: magnitude `1_005_000`. -/
def c5Sender : AccountBalanceChange := ⟨0, "A", -1005000, 2000000, 995000⟩

/-- First (already used) receiver for the C5 witness. -/
def c5Recv0 : AccountBalanceChange := ⟨1, "B", 1000000, 0, 1000000⟩

/-- Second (matched) receiver for the C5 witness. -/
def c5Recv1 : AccountBalanceChange := ⟨2, "C", 1000000, 0, 1000000⟩

/-- Witness for C5: a 5000-lamport fee is absorbed, the used first receiver is
skipped, the second is matched, the record carries the receiver-side amount,
and both parties end marked used. -/
theorem C5_passA_first_fit_witness :
    is_matching_transfer 1005000 1000000 = true ∧
    findRecvIdx 1005000 [true, false] [c5Recv0, c5Recv1] = some 1 ∧
    passA "sg" 9 [c5Recv0, c5Recv1] [c5Sender] [true, false] =
      ([true], [true, true], [⟨"sg", "A", "C", 1000000, 0, 2, 9⟩]) :=
  ⟨(C5_passA_first_fit.1 1005000 1000000).mpr (by decide),
   (C5_passA_first_fit.2.1 1005000 [true, false] [c5Recv0, c5Recv1] 1).mpr
     (by constructor
         · exact ⟨rfl, by decide⟩
         · intro k hk
           interval_cases k
           · rintro ⟨hp, _⟩
             simp [List.getD] at hp),
   (C5_passA_first_fit.2.2 "sg" 9 [c5Recv0, c5Recv1] c5Sender [] [true, false] 1
       (by decide)).trans (by decide)⟩

/-! ## Claim C9 -/

/-- Below `2^63` the `as i64` cast is the identity. -/
lemma toI64_of_lt (n : Nat) (h : n < I64BOUND) : toI64 n = n := by
  unfold toI64
  have hm : n % U64MOD = n := Nat.mod_eq_of_lt (by unfold U64MOD I64BOUND at *; omega)
  rw [hm]
  simp [h]

/-- Inside the `i64` range the wrap is the identity. -/
lemma wrapS64_of_range (z : Int) (h1 : -(I64BOUND : Int) ≤ z) (h2 : z < (I64BOUND : Int)) :
    wrapS64 z = z := by
  unfold wrapS64
  have e : (U64MOD : Int) = (I64BOUND : Int) + I64BOUND := by decide
  rw [Int.emod_eq_of_lt (by push_cast; omega) (by rw [e]; push_cast at *; omega)]
  ring

/-- Counterexample to claim C9: for the representable `u64` balance pair
`pre = 0`, `post = 2^63`, the `as i64` conversion wraps and the computed delta
is `-2^63`, the negation of the true difference — the arithmetic is not wide
enough for every pair of representable `u64` balances, and the account is
classified as a sender although its balance increased. -/
theorem C9_counterexample :
    analyze_balance_changes ["A"] ⟨[0], [9223372036854775808], [], [], [], []⟩ =
      [⟨0, "A", -9223372036854775808, 0, 9223372036854775808⟩] ∧
    ((-9223372036854775808 : Int) ≠ (9223372036854775808 : Int) - 0) := by
  constructor
  · decide
  · decide

/-- Claim C9 amended: deltas are computed in `i64` through wrapping `as`
casts; for every pair of balances below `2^63` (which covers all balances
expressible on chain) the computed delta equals the exact signed difference,
with no overflow and no panic. -/
theorem C9_amended (pre post : Nat) (h1 : pre < I64BOUND) (h2 : post < I64BOUND) :
    wrapS64 (toI64 post - toI64 pre) = (post : Int) - pre ∧
    (∀ (addrs : List String) (i : Nat), pre ≠ post →
      buildChanges addrs i [pre] [post] =
        [⟨i, resolveAddress addrs i, (post : Int) - pre, pre, post⟩]) := by
  have hexact : wrapS64 (toI64 post - toI64 pre) = (post : Int) - pre := by
    rw [toI64_of_lt pre h1, toI64_of_lt post h2]
    refine wrapS64_of_range _ ?_ ?_
    · unfold I64BOUND at *; push_cast; omega
    · unfold I64BOUND at *; push_cast; omega
  refine ⟨hexact, ?_⟩
  intro addrs i hne
  have hnz : (post : Int) - pre ≠ 0 := by
    intro hz
    exact hne (by omega)
  rw [buildChanges, hexact]
  simp [hnz, buildChanges]

/-- Witness for C9 at `pre = 3`, `post = 10`. -/
theorem C9_amended_witness :
    wrapS64 (toI64 10 - toI64 3) = (10 : Int) - 3 ∧
    buildChanges [] 0 [3] [10] = [⟨0, resolveAddress [] 0, (10 : Int) - 3, 3, 10⟩] :=
  ⟨(C9_amended 3 10 (by decide) (by decide)).1,
   (C9_amended 3 10 (by decide) (by decide)).2 [] 0 (by decide)⟩

/-! ## Claim C10 -/

/-- Claim C10: in native Pass D no flag is updated and no amount decremented,
so once a first eligible fallback sender exists, every still-unmatched
receiver above `1_000_000` is paired with that same sender: Pass D equals the
map over exactly those receivers, all records naming the one sender as
`from`. -/
theorem C10_passD_single_sender (sig : String) (ts : Nat) (usedS : List Bool)
    (senders : List AccountBalanceChange) (s : AccountBalanceChange)
    (pairs : List (Bool × AccountBalanceChange))
    (h : firstFallbackSender usedS senders = some s) :
    passD sig ts usedS senders pairs =
      (pairs.filter (fun p => !p.1 && decide (1000000 < p.2.change))).map
        (fun p => ⟨sig, s.address, p.2.address, recvAmtOf p.2, s.index, p.2.index, ts⟩) := by
  induction pairs with
  | nil => rfl
  | cons p rest ih =>
    obtain ⟨ur, r⟩ := p
    by_cases hcond : ur = false ∧ 1000000 < r.change
    · rw [passD, if_pos hcond, h, List.filter_cons]
      have hb : (!ur && decide (1000000 < r.change)) = true := by
        simp [hcond.1, hcond.2]
      simp only [hb, if_true, List.map_cons]
      rw [ih]
      simp
    · rw [passD, if_neg hcond, List.filter_cons]
      have hb : (!ur && decide (1000000 < r.change)) = false := by
        by_cases hu : ur = true
        · simp [hu]
        · have hu2 : ur = false := by
            cases ur
            · rfl
            · exact absurd rfl hu
          simp [hu2] at hcond ⊢
          omega
      simp only [hb, Bool.false_eq_true, if_false]
      rw [ih]
      simp

/-- Fallback sender for the C10 witness. -/
def c10Sender : AccountBalanceChange := ⟨0, "S", -200000, 300000, 100000⟩

/-- First unmatched large receiver for the C10 witness. -/
def c10Recv1 : AccountBalanceChange := ⟨1, "R1", 2000000, 0, 2000000⟩

/-- Second unmatched large receiver for the C10 witness. -/
def c10Recv2 : AccountBalanceChange := ⟨2, "R2", 3000000, 0, 3000000⟩

/-- Witness for C10: two unmatched receivers above the threshold both get
paired with the single eligible sender, which names `S` as `from` twice. -/
theorem C10_passD_single_sender_witness :
    passD "sg" 4 [false] [c10Sender] [(false, c10Recv1), (false, c10Recv2)] =
      [⟨"sg", "S", "R1", 2000000, 0, 1, 4⟩, ⟨"sg", "S", "R2", 3000000, 0, 2, 4⟩] :=
  (C10_passD_single_sender "sg" 4 [false] [c10Sender] c10Sender
      [(false, c10Recv1), (false, c10Recv2)] (by decide)).trans (by decide)

/-! ## Counterexamples to claims C1, C2, C6, C7 -/

/-- First C1 sender: delta `-0.6` SOL. -/
def c1Sender1 : AccountBalanceChange := ⟨0, "SND1", -600000000, 700000000, 100000000⟩

/-- Second C1 sender: delta `-0.6` SOL. -/
def c1Sender2 : AccountBalanceChange := ⟨1, "SND2", -600000000, 700000000, 100000000⟩

/-- C1 receiver: delta `+1` SOL, covered by the two senders in Pass C. -/
def c1Recv : AccountBalanceChange := ⟨2, "RCV", 1000000000, 0, 1000000000⟩

/-- Counterexample to claim C1: with one receiver of delta `1_000_000_000`
covered by two senders of `600_000_000` each, native Pass C emits two records
to that receiver with the sender-derived amounts `600_000_000` and
`400_000_000`, neither equal to the receiver-side observed delta
`1_000_000_000`. -/
theorem C1_counterexample :
    extract_transfers [c1Sender1, c1Sender2, c1Recv] [] 0 =
      [⟨"", "SND1", "RCV", 600000000, 0, 2, 0⟩, ⟨"", "SND2", "RCV", 400000000, 1, 2, 0⟩] ∧
    c1Recv.change = 1000000000 ∧ c1Recv.address = "RCV" ∧
    (600000000 : Nat) ≠ 1000000000 ∧ (400000000 : Nat) ≠ 1000000000 := by
  exact ⟨by decide, by decide, by decide, by decide, by decide⟩

/-- Post token balances for the C2 counterexample: two freshly funded accounts
under two distinct mints. -/
def c2Post : List TokenBalance := [⟨0, "A", some ⟨"5", 6⟩⟩, ⟨1, "B", some ⟨"7", 6⟩⟩]

/-- The balance-change vector of the C2 input (independent of the mint-group
iteration order). -/
def c2Changes : List TokenChangeEntry := tokenBalanceChanges [] c2Post [(0, "A"), (1, "B")] []

/-- Counterexample to claim C2: the token reconciler's output order follows the
mint-group `HashMap` iteration order, which is per-instance random in the
source; two valid iteration orders of the same map on the identical input
produce differently ordered outputs, so two invocations need not yield
identical, order-stable output. -/
theorem C2_counterexample :
    analyze_token_balance_changes ["X0", "X1"] [] c2Post [] 0 [(0, "A"), (1, "B")] [] ["A", "B"] ≠
      analyze_token_balance_changes ["X0", "X1"] [] c2Post [] 0 [(0, "A"), (1, "B")] [] ["B", "A"] ∧
    validKeyOrder c2Post [(0, "A"), (1, "B")] ∧
    validKeyOrder ([] : List TokenBalance) [] ∧
    validMintOrder c2Changes ["A", "B"] ∧
    validMintOrder c2Changes ["B", "A"] := by
  refine ⟨by decide, ?_, ?_, ?_, ?_⟩
  · unfold validKeyOrder
    have h : keysOf c2Post = [(0, "A"), (1, "B")] := by decide
    rw [h]
  · unfold validKeyOrder
    have h : keysOf ([] : List TokenBalance) = [] := by decide
    rw [h]
  · unfold validMintOrder
    have h : mintsOf c2Changes = ["A", "B"] := by decide
    rw [h]
  · unfold validMintOrder
    have h : mintsOf c2Changes = ["A", "B"] := by decide
    rw [h]
    exact List.Perm.swap "A" "B" []

/-- Counterexample to claim C6: a mint group with one increase of magnitude 1
and one decrease of magnitude 19 — ratio 19, far above 10 — still emits a
transfer, because the code's lower bound is the floor division
`to_amount >= from_amount / 10` (here `19 / 10 = 1`). -/
theorem C6_counterexample :
    processMint ["A0", "A1"] "sg" 0 "M" [(0, 1, 6), (1, -19, 6)] =
      [⟨"sg", "A1", "A0", 1, "M", 6, 0⟩] ∧
    10 * min 19 1 < max 19 1 ∧
    i64ToU64 (1 : Int) = 1 ∧ i64ToU64 (wrapS64 (-(-19 : Int))) = 19 := by
  exact ⟨by decide, by decide, by decide, by decide⟩

/-- C7 sender: magnitude `200_000`. -/
def c7Sender : AccountBalanceChange := ⟨0, "SND", -200000, 300000, 100000⟩

/-- C7 receiver: delta `(2^64 + 6) / 11`, chosen so that `delta * 11` wraps
`u64` to `6`. -/
def c7Recv : AccountBalanceChange :=
  ⟨1, "RCV", 1676976733973595602, 0, 1676976733973595602⟩

/-- Counterexample to claim C7: in Pass C the tolerance computation
`remaining_needed * 11 / 10` wraps `u64` to `0` for the receiver delta
`(2^64+6)/11`, so `used_amount = min(send, 0) = 0` and a transfer record with
`amount == 0` is emitted. -/
theorem C7_counterexample :
    extract_transfers [c7Sender, c7Recv] [] 0 =
      [⟨"", "SND", "RCV", 0, 0, 1, 0⟩,
       ⟨"", "SND", "RCV", 1676976733973595602, 0, 1, 0⟩] ∧
    (⟨"", "SND", "RCV", 0, 0, 1, 0⟩ : SolTransfer).amount = 0 := by
  exact ⟨by decide, by decide⟩

/-! ## Machine-arithmetic range lemmas -/

/-- The wrapped signed value lies in the `i64` range. -/
lemma wrapS64_range (z : Int) :
    -(I64BOUND : Int) ≤ wrapS64 z ∧ wrapS64 z < (I64BOUND : Int) := by
  unfold wrapS64 U64MOD I64BOUND
  omega

/-- The cast value lies in the `i64` range. -/
lemma toI64_range (n : Nat) : -(I64BOUND : Int) ≤ toI64 n ∧ toI64 n < (I64BOUND : Int) := by
  unfold toI64 U64MOD I64BOUND
  split_ifs with h <;> omega

/-- Wrapping preserves the residue modulo `2^64`. -/
lemma wrapS64_emod (z : Int) : wrapS64 z % (U64MOD : Int) = z % (U64MOD : Int) := by
  unfold wrapS64 U64MOD I64BOUND
  omega

/-- A nonzero value of magnitude below `2^64` stays nonzero under wrapping. -/
lemma wrapS64_ne_zero (z : Int) (h1 : -(U64MOD : Int) < z) (h2 : z < (U64MOD : Int))
    (h3 : z ≠ 0) : wrapS64 z ≠ 0 := by
  unfold wrapS64 U64MOD I64BOUND at *
  omega

/-- Casting a positive `i64` value with `as u64` gives its absolute value, positive. -/
lemma i64ToU64_of_pos (z : Int) (h1 : 0 < z) (h2 : z < (I64BOUND : Int)) :
    i64ToU64 z = z.toNat ∧ 0 < i64ToU64 z := by
  unfold i64ToU64 U64MOD I64BOUND at *
  omega

/-- Casting to `u64` sees only the residue, so the signed wrap is invisible. -/
lemma i64ToU64_wrapS64 (z : Int) : i64ToU64 (wrapS64 z) = i64ToU64 z := by
  unfold i64ToU64 wrapS64 U64MOD I64BOUND
  omega

/-- The `as u64` image of the negation of a negative `i64` value is positive. -/
lemma i64ToU64_neg_pos (z : Int) (h1 : -(I64BOUND : Int) ≤ z) (h2 : z < 0) :
    0 < i64ToU64 (wrapS64 (-z)) := by
  rw [i64ToU64_wrapS64]
  unfold i64ToU64 U64MOD I64BOUND at *
  omega

/-- A parsed digit sequence is below `2^64`. -/
lemma parseDigits_lt (cs : List Char) (n : Nat) (h : parseDigits cs = some n) :
    n < U64MOD := by
  unfold parseDigits at h
  split_ifs at h
  obtain ⟨m, _, hf⟩ := Option.bind_eq_some.mp h
  by_cases hb : m < U64MOD
  · rw [if_pos hb] at hf
    injection hf with hf
    omega
  · rw [if_neg hb] at hf
    exact absurd hf (by simp)

/-- A parsed `u64` is below `2^64`. -/
lemma parseU64_lt (s : String) (n : Nat) (h : parseU64 s = some n) : n < U64MOD := by
  unfold parseU64 at h
  exact parseDigits_lt _ _ h

/-! ## Structure of the token balance-change entries -/

/-- Every recorded token balance change is a nonzero `i64` value. -/
lemma tokenBalanceChanges_range (preL postL : List TokenBalance)
    (po pro : List (Nat × String)) :
    ∀ e ∈ tokenBalanceChanges preL postL po pro,
      -(I64BOUND : Int) ≤ e.change ∧ e.change < (I64BOUND : Int) ∧ e.change ≠ 0 := by
  intro e he
  unfold tokenBalanceChanges at he
  rcases List.mem_append.mp he with h | h
  · obtain ⟨k, _, hk⟩ := List.mem_flatMap.mp h
    unfold diffEntryPost at hk
    split at hk
    · simp at hk
    · split at hk
      · split_ifs at hk with hmint
        · split at hk
          · split at hk
            · rename_i preRaw postRaw hp1 hp2
              split_ifs at hk with hne hnz
              · simp at hk
                subst hk
                have hr := wrapS64_range (toI64 postRaw - toI64 preRaw)
                exact ⟨hr.1, hr.2, hnz⟩
              · simp at hk
              · simp at hk
            · simp at hk
          · simp at hk
        · simp at hk
      · split at hk
        · split at hk
          · rename_i postA _ postRaw hp
            split_ifs at hk with hpos
            · simp at hk
              subst hk
              have hlt := parseU64_lt _ _ hp
              refine ⟨(toI64_range postRaw).1, (toI64_range postRaw).2, ?_⟩
              show toI64 postRaw ≠ 0
              unfold U64MOD at hlt
              unfold toI64 U64MOD I64BOUND
              split_ifs with hb <;> omega
            · simp at hk
          · simp at hk
        · simp at hk
  · obtain ⟨k, _, hk⟩ := List.mem_flatMap.mp h
    unfold diffEntryPre at hk
    split_ifs at hk with hcontains
    · simp at hk
    · split at hk
      · simp at hk
      · split at hk
        · split at hk
          · rename_i preB _ preA _ preRaw hp
            split_ifs at hk with hpos
            · simp at hk
              subst hk
              have hlt := parseU64_lt _ _ hp
              have hr := wrapS64_range (-(toI64 preRaw))
              refine ⟨hr.1, hr.2, ?_⟩
              apply wrapS64_ne_zero
              · have := toI64_range preRaw
                unfold U64MOD I64BOUND at *
                omega
              · have := toI64_range preRaw
                unfold U64MOD I64BOUND at *
                omega
              · have hz : toI64 preRaw ≠ 0 := by
                  unfold toI64 U64MOD I64BOUND at *
                  split_ifs at * <;> omega
                omega
            · simp at hk
          · simp at hk
        · simp at hk

/-! ## Record structure of the token reconciler -/

/-- Every `MINT/AIRDROP` record comes from one increase entry, with the
increase's `as u64` amount (positive by the emission guard). -/
lemma mem_mintOnly (addrs : List String) (sig : String) (ts : Nat) (m : String) :
    ∀ (incs : List (Nat × Int × Nat)) (t : TokenTransfer),
      t ∈ mintOnly addrs sig ts m incs →
      ∃ c ∈ incs, 0 < i64ToU64 c.2.1 ∧
        t = ⟨sig, "MINT/AIRDROP", resolveAddress addrs c.1, i64ToU64 c.2.1, m, c.2.2, ts⟩ := by
  intro incs
  induction incs with
  | nil =>
    intro t ht
    simp [mintOnly] at ht
  | cons c rest ih =>
    obtain ⟨ta, tc, d⟩ := c
    intro t ht
    rw [mintOnly] at ht
    rcases List.mem_append.mp ht with h | h
    · split_ifs at h with h1 h2
      · simp at h
        subst h
        exact ⟨(ta, tc, d), List.mem_cons_self _ _, h1, rfl⟩
      · simp at h
      · simp at h
    · obtain ⟨c2, hc2, hrest⟩ := ih t h
      exact ⟨c2, List.mem_cons_of_mem _ hc2, hrest⟩

/-- Every `BURN/DESTROY` record comes from one decrease entry, with the
decrease's magnitude as amount (positive by the emission guard). -/
lemma mem_burnOnly (addrs : List String) (sig : String) (ts : Nat) (m : String) :
    ∀ (decs : List (Nat × Int × Nat)) (t : TokenTransfer),
      t ∈ burnOnly addrs sig ts m decs →
      ∃ c ∈ decs, 0 < i64ToU64 (wrapS64 (-c.2.1)) ∧
        t = ⟨sig, resolveAddress addrs c.1, "BURN/DESTROY",
          i64ToU64 (wrapS64 (-c.2.1)), m, c.2.2, ts⟩ := by
  intro decs
  induction decs with
  | nil =>
    intro t ht
    simp [burnOnly] at ht
  | cons c rest ih =>
    obtain ⟨fa, fc, d⟩ := c
    intro t ht
    rw [burnOnly] at ht
    rcases List.mem_append.mp ht with h | h
    · split_ifs at h with h1 h2
      · simp at h
        subst h
        exact ⟨(fa, fc, d), List.mem_cons_self _ _, h1, rfl⟩
      · simp at h
      · simp at h
    · obtain ⟨c2, hc2, hrest⟩ := ih t h
      exact ⟨c2, List.mem_cons_of_mem _ hc2, hrest⟩

/-- Every multi-match record comes from one increase entry, carries that
increase's `as u64` amount, and its `from` is a resolved address. -/
lemma mem_multiMatch (addrs : List String) (sig : String) (ts : Nat) (m : String)
    (decs : List (Nat × Int × Nat)) :
    ∀ (incs : List (Nat × Int × Nat)) (usedD : List Bool) (t : TokenTransfer),
      t ∈ multiMatch addrs sig ts m decs incs usedD →
      ∃ c ∈ incs, ∃ fa : Nat,
        t = ⟨sig, resolveAddress addrs fa, resolveAddress addrs c.1,
          i64ToU64 c.2.1, m, c.2.2, ts⟩ := by
  intro incs
  induction incs with
  | nil =>
    intro usedD t ht
    simp [multiMatch] at ht
  | cons c rest ih =>
    obtain ⟨ta, tc, d⟩ := c
    intro usedD t ht
    rw [multiMatch] at ht
    rcases hbd : bestDecAux (i64ToU64 tc) (usedD.zip decs.enum) none with _ | ⟨i, fa, fam⟩ <;>
      rw [hbd] at ht
    · obtain ⟨c2, hc2, hrest⟩ := ih usedD t ht
      exact ⟨c2, List.mem_cons_of_mem _ hc2, hrest⟩
    · rcases List.mem_cons.mp ht with h | h
      · exact ⟨(ta, tc, d), List.mem_cons_self _ _, fa, h⟩
      · obtain ⟨c2, hc2, hrest⟩ := ih (usedD.set i true) t h
        exact ⟨c2, List.mem_cons_of_mem _ hc2, hrest⟩

/-- Master description of the records a mint group can emit: every record
carries the signature, timestamp and mint of the call, and is either a
burn-shaped record of one decrease entry or an increase-amount record of one
increase entry. -/
lemma processMint_mem (addrs : List String) (sig : String) (ts : Nat) (m : String)
    (changes : List (Nat × Int × Nat)) (t : TokenTransfer)
    (ht : t ∈ processMint addrs sig ts m changes) :
    t.signature = sig ∧ t.timestamp = ts ∧ t.mint = m ∧
    ((t.to_addr = "BURN/DESTROY" ∧ 0 < t.amount ∧
        ∃ c ∈ changes, c.2.1 < 0 ∧ t.amount = i64ToU64 (wrapS64 (-c.2.1)) ∧
          t.from_addr = resolveAddress addrs c.1) ∨
     (∃ c ∈ changes, 0 < c.2.1 ∧ t.amount = i64ToU64 c.2.1 ∧
        t.to_addr = resolveAddress addrs c.1 ∧
        (t.from_addr = "MINT/AIRDROP" ∨ ∃ i, t.from_addr = resolveAddress addrs i))) := by
  unfold processMint at ht
  dsimp only at ht
  split at ht
  · rename_i ta tc d fa fc fd hinc hdec
    split_ifs at ht with hcond
    · simp at ht
      subst ht
      refine ⟨rfl, rfl, rfl, Or.inr ⟨(ta, tc, d), ?_, ?_, rfl, rfl, Or.inr ⟨fa, rfl⟩⟩⟩
      · have : (ta, tc, d) ∈ changes.filter (fun c => decide (0 < c.2.1)) := by
          rw [hinc]
          exact List.mem_cons_self _ _
        exact (List.mem_filter.mp this).1
      · have : (ta, tc, d) ∈ changes.filter (fun c => decide (0 < c.2.1)) := by
          rw [hinc]
          exact List.mem_cons_self _ _
        simpa using (List.mem_filter.mp this).2
    · simp at ht
  · split_ifs at ht with h1 h2 h3
    · obtain ⟨c, hc, fa, hform⟩ :=
        mem_multiMatch addrs sig ts m _ _ _ t ht
      have hmem := List.mem_filter.mp hc
      subst hform
      exact ⟨rfl, rfl, rfl, Or.inr ⟨c, hmem.1, by simpa using hmem.2, rfl, rfl,
        Or.inr ⟨fa, rfl⟩⟩⟩
    · obtain ⟨c, hc, hpos, hform⟩ := mem_mintOnly addrs sig ts m _ t ht
      have hmem := List.mem_filter.mp hc
      subst hform
      exact ⟨rfl, rfl, rfl, Or.inr ⟨c, hmem.1, by simpa using hmem.2, rfl, rfl,
        Or.inl rfl⟩⟩
    · obtain ⟨c, hc, hpos, hform⟩ := mem_burnOnly addrs sig ts m _ t ht
      have hmem := List.mem_filter.mp hc
      subst hform
      exact ⟨rfl, rfl, rfl, Or.inl ⟨rfl, hpos, c, hmem.1, by simpa using hmem.2, rfl, rfl⟩⟩
    · simp at ht

/-- Pushing each block into one growing vector is concatenation of the
blocks. -/
lemma foldlAppend_eq_flatMap {α β : Type} (f : α → List β) :
    ∀ (l : List α) (acc : List β),
      l.foldl (fun a x => a ++ f x) acc = acc ++ l.flatMap f := by
  intro l
  induction l with
  | nil =>
    intro acc
    simp
  | cons x xs ih =>
    intro acc
    simp [List.foldl_cons, ih, List.flatMap_cons]

/-- The token reconciler is the concatenation, in mint-map iteration order, of
the per-mint record blocks. -/
lemma analyze_token_eq_flatMap (addrs : List String) (preL postL : List TokenBalance)
    (sigb : List Nat) (ts : Nat) (po pro : List (Nat × String)) (mo : List String) :
    analyze_token_balance_changes addrs preL postL sigb ts po pro mo =
      mo.flatMap (fun m => processMint addrs (bs58encode sigb) ts m
        (mintGroup (tokenBalanceChanges preL postL po pro) m)) := by
  unfold analyze_token_balance_changes
  exact (foldlAppend_eq_flatMap _ mo []).trans (by simp)

/-- A record of the token reconciler lives in the block of some iterated
mint. -/
lemma mem_analyze_token (addrs : List String) (preL postL : List TokenBalance)
    (sigb : List Nat) (ts : Nat) (po pro : List (Nat × String)) (mo : List String)
    (t : TokenTransfer)
    (ht : t ∈ analyze_token_balance_changes addrs preL postL sigb ts po pro mo) :
    ∃ m ∈ mo, t ∈ processMint addrs (bs58encode sigb) ts m
      (mintGroup (tokenBalanceChanges preL postL po pro) m) := by
  rw [analyze_token_eq_flatMap] at ht
  exact List.mem_flatMap.mp ht

/-- A mint-group element is the projection of a balance-change entry of that
mint. -/
lemma mem_mintGroup (bcs : List TokenChangeEntry) (m : String) (c : Nat × Int × Nat)
    (hc : c ∈ mintGroup bcs m) :
    ∃ e ∈ bcs, e.mint = m ∧ c = (e.account_index, e.change, e.decimals) := by
  unfold mintGroup at hc
  obtain ⟨e, he, hee⟩ := List.mem_map.mp hc
  have h2 := List.mem_filter.mp he
  exact ⟨e, h2.1, by simpa using h2.2, hee.symm⟩

/-! ## Claim C8 -/

/-- Claim C8: a balance-array index with no corresponding universe entry is
resolved to the synthetic placeholder `unknown_<index>` in any transfer record
that refers to it.  For the native reconciler a shorter universe makes the
whole result empty (so no record refers to any index); for the token
reconciler every non-sentinel `from`/`to` address is a `resolveAddress`
application, which falls back to the placeholder exactly when the index is out
of range. -/
theorem C8_unknown_placeholder :
    (∀ (addrs : List String) (idx : Nat), addrs.length ≤ idx →
        resolveAddress addrs idx = "unknown_" ++ Nat.repr idx)
  ∧ (∀ (tu : SubscribeUpdateTransaction) (ts : Nat) (txi : TransactionInfo)
        (meta : TransactionStatusMeta) (raw : RawTransaction) (msg : Message),
        tu.transaction = some txi → txi.meta = some meta →
        txi.transaction = some raw → raw.message = some msg →
        (build_complete_account_list msg meta).length < meta.pre_balances.length →
        parse_sol_transfers tu ts = .ok [])
  ∧ (∀ (addrs : List String) (preL postL : List TokenBalance) (sigb : List Nat)
        (ts : Nat) (po pro : List (Nat × String)) (mo : List String)
        (t : TokenTransfer),
        t ∈ analyze_token_balance_changes addrs preL postL sigb ts po pro mo →
        (t.from_addr = "MINT/AIRDROP" ∨ ∃ i, t.from_addr = resolveAddress addrs i) ∧
        (t.to_addr = "BURN/DESTROY" ∨ ∃ i, t.to_addr = resolveAddress addrs i)) := by
  refine ⟨?_, ?_, ?_⟩
  · intro addrs idx h
    unfold resolveAddress
    rw [List.get?_eq_none.mpr h]
    rfl
  · intro tu ts txi meta raw msg h1 h2 h3 h4 h5
    exact parse_sol_transfers_guard tu ts txi meta raw msg h1 h2 h3 h4 (Or.inr h5)
  · intro addrs preL postL sigb ts po pro mo t ht
    obtain ⟨m, _, hpm⟩ := mem_analyze_token addrs preL postL sigb ts po pro mo t ht
    have hm := processMint_mem addrs (bs58encode sigb) ts m _ t hpm
    rcases hm.2.2.2 with ⟨hburn, _, c, _, _, _, hfrom⟩ | ⟨c, _, _, _, hto, hfrom⟩
    · exact ⟨Or.inr ⟨c.1, hfrom⟩, Or.inl hburn⟩
    · rcases hfrom with hf | ⟨i, hf⟩
      · exact ⟨Or.inl hf, Or.inr ⟨c.1, hto⟩⟩
      · exact ⟨Or.inr ⟨i, hf⟩, Or.inr ⟨c.1, hto⟩⟩

/-- The token record of the C8 witness: account index 3 against an empty
universe resolves to the placeholder. -/
def c8Token : TokenTransfer := ⟨"", "MINT/AIRDROP", "unknown_3", 5, "M", 6, 0⟩

/-- Witness for C8: an out-of-range index resolves to the placeholder, a short
universe empties the native result, and the token record built on an empty
universe refers to `unknown_3`. -/
theorem C8_unknown_placeholder_witness :
    resolveAddress ["A"] 3 = "unknown_" ++ Nat.repr 3 ∧
    parse_sol_transfers
      ⟨some ⟨[1], some ⟨some ⟨[[2]]⟩⟩, some ⟨[5, 6], [6, 5], [], [], [], []⟩⟩⟩ 0 = .ok [] ∧
    ((c8Token.from_addr = "MINT/AIRDROP" ∨ ∃ i, c8Token.from_addr = resolveAddress [] i) ∧
     (c8Token.to_addr = "BURN/DESTROY" ∨ ∃ i, c8Token.to_addr = resolveAddress [] i)) :=
  ⟨C8_unknown_placeholder.1 ["A"] 3 (by decide),
   C8_unknown_placeholder.2.1 _ 0 _ _ _ _ rfl rfl rfl rfl (by decide),
   C8_unknown_placeholder.2.2 [] [] [⟨3, "M", some ⟨"5", 6⟩⟩] [] 0 [(3, "M")] [] ["M"]
     c8Token (by decide)⟩

/-! ## Claim C2, amended -/

/-- Claim C2 amended: the native reconciler uses no hash maps and is a pure
function of its input; the token reconciler is a pure function of its input
together with the three `HashMap` iteration orders — its output is the
concatenation, in mint-map iteration order, of per-mint blocks whose records
all carry that mint — but because `HashMap` iteration order varies per map
instance, two invocations on identical input may produce the same records in
different order or pairing. -/
theorem C2_amended :
    (∀ (addrs : List String) (preL postL : List TokenBalance) (sigb : List Nat)
        (ts : Nat) (po pro : List (Nat × String)) (mo : List String),
        analyze_token_balance_changes addrs preL postL sigb ts po pro mo =
          mo.flatMap (fun m => processMint addrs (bs58encode sigb) ts m
            (mintGroup (tokenBalanceChanges preL postL po pro) m)))
  ∧ (∀ (addrs : List String) (sig : String) (ts : Nat) (m : String)
        (changes : List (Nat × Int × Nat)) (t : TokenTransfer),
        t ∈ processMint addrs sig ts m changes → t.mint = m) := by
  refine ⟨?_, ?_⟩
  · intro addrs preL postL sigb ts po pro mo
    exact analyze_token_eq_flatMap addrs preL postL sigb ts po pro mo
  · intro addrs sig ts m changes t ht
    exact (processMint_mem addrs sig ts m changes t ht).2.2.1

/-- Witness for C2 amended: a concrete mint-only record carries its group's
mint. -/
theorem C2_amended_witness :
    (⟨"", "MINT/AIRDROP", "X0", 5, "A", 6, 0⟩ : TokenTransfer).mint = "A" :=
  C2_amended.2 ["X0", "X1"] "" 0 "A" [(0, 5, 6)] _ (by decide)

/-! ## Claim C6, amended -/

/-- Claim C6 amended: when a mint group has exactly one increase and one
decrease, a transfer is emitted iff
`from_amount / 10 <= to_amount && to_amount <= from_amount * 10` in `u64`
arithmetic — floor division on the lower bound (so ratios above 10 such as
19:1 still match) and wrapping multiplication on the upper bound; the emitted
record is `{from: decrease's resolved address, to: increase's resolved
address, amount: increase}`. -/
theorem C6_amended (addrs : List String) (sig : String) (ts : Nat) (m : String)
    (changes : List (Nat × Int × Nat)) (ta fa : Nat) (tc fc : Int) (td fd : Nat)
    (hinc : changes.filter (fun c => decide (0 < c.2.1)) = [(ta, tc, td)])
    (hdec : changes.filter (fun c => decide (c.2.1 < 0)) = [(fa, fc, fd)]) :
    processMint addrs sig ts m changes =
      if i64ToU64 (wrapS64 (-fc)) / 10 ≤ i64ToU64 tc ∧
          i64ToU64 tc ≤ wrap64 (i64ToU64 (wrapS64 (-fc)) * 10) then
        [⟨sig, resolveAddress addrs fa, resolveAddress addrs ta, i64ToU64 tc, m, td, ts⟩]
      else [] := by
  unfold processMint
  dsimp only
  rw [hinc, hdec]

/-- Witness for C6 amended: magnitudes 5 against 7 are within the bounds and
emit the increase-amount record. -/
theorem C6_amended_witness :
    processMint ["A0", "A1"] "sg" 3 "M" [(0, 5, 6), (1, -7, 6)] =
      [⟨"sg", "A1", "A0", 5, "M", 6, 3⟩] :=
  (C6_amended ["A0", "A1"] "sg" 3 "M" [(0, 5, 6), (1, -7, 6)] 0 1 5 (-7) 6 6
      (by decide) (by decide)).trans (by decide)

/-! ## Record structure of the native passes -/

/-- A found Pass A index is in range of the pair list. -/
lemma findRecvIdxAux_lt (send : Nat) :
    ∀ (pairs : List (Bool × AccountBalanceChange)) (j : Nat),
      findRecvIdxAux send pairs = some j → j < pairs.length := by
  intro pairs
  induction pairs with
  | nil =>
    intro j h
    simp [findRecvIdxAux] at h
  | cons p rest ih =>
    intro j h
    rw [findRecvIdxAux] at h
    split_ifs at h with hc
    · injection h with h
      rw [List.length_cons, ← h]
      omega
    · obtain ⟨j0, hj0, hj⟩ := Option.map_eq_some'.mp h
      have := ih j0 hj0
      rw [List.length_cons, ← hj]
      omega

/-- Every Pass A record is addressed to a receiver of the list and carries
exactly that receiver's `as u64` delta. -/
lemma passA_mem (sig : String) (ts : Nat) (receivers : List AccountBalanceChange) :
    ∀ (ss : List AccountBalanceChange) (usedR : List Bool) (t : SolTransfer),
      t ∈ (passA sig ts receivers ss usedR).2.2 →
      ∃ r ∈ receivers, t.to_addr = r.address ∧ t.to_index = r.index ∧
        t.amount = recvAmtOf r := by
  intro ss
  induction ss with
  | nil =>
    intro usedR t ht
    simp [passA] at ht
  | cons s rest ih =>
    intro usedR t ht
    rw [passA] at ht
    dsimp only at ht
    split at ht
    · rename_i j hj
      dsimp only at ht
      rcases List.mem_cons.mp ht with h | h
      · have hjlt : j < receivers.length := by
          have := findRecvIdxAux_lt (sendAmtOf s) (usedR.zip receivers) j hj
          simp [List.length_zip] at this
          omega
        refine ⟨receivers.getD j default, ?_, ?_⟩
        · rw [List.getD_eq_get _ _ hjlt]
          exact List.get_mem _ _ _
        · subst h
          exact ⟨rfl, rfl, rfl⟩
      · exact ih (usedR.set j true) t h
    · exact ih usedR t ht

/-- Every Pass B candidate is a receiver with its `as u64` delta, above the
dust floor. -/
lemma candListB_mem (send : Nat) :
    ∀ (usedR : List Bool) (receivers : List AccountBalanceChange) (j0 : Nat)
      (x : Nat × AccountBalanceChange × Nat), x ∈ candListB send j0 usedR receivers →
      x.2.1 ∈ receivers ∧ x.2.2 = recvAmtOf x.2.1 ∧ 100000 ≤ x.2.2 := by
  intro usedR
  induction usedR with
  | nil =>
    intro receivers j0 x hx
    cases receivers <;> simp [candListB] at hx
  | cons u us ih =>
    intro receivers j0 x hx
    cases receivers with
    | nil => simp [candListB] at hx
    | cons r rs =>
      rw [candListB] at hx
      rcases List.mem_append.mp hx with h | h
      · split_ifs at h with hcond
        · simp at h
          subst h
          exact ⟨List.mem_cons_self _ _, rfl, hcond.2.2⟩
        · simp at h
      · obtain ⟨h1, h2, h3⟩ := ih rs (j0 + 1) x h
        exact ⟨List.mem_cons_of_mem _ h1, h2, h3⟩

/-- Every Pass C candidate is a sender with its `as u64` magnitude, at or
above the dust floor. -/
lemma candListC_mem :
    ∀ (usedS : List Bool) (senders : List AccountBalanceChange) (i0 : Nat)
      (x : Nat × AccountBalanceChange × Nat), x ∈ candListC i0 usedS senders →
      x.2.1 ∈ senders ∧ x.2.2 = sendAmtOf x.2.1 ∧ 100000 ≤ x.2.2 := by
  intro usedS
  induction usedS with
  | nil =>
    intro senders i0 x hx
    cases senders <;> simp [candListC] at hx
  | cons u us ih =>
    intro senders i0 x hx
    cases senders with
    | nil => simp [candListC] at hx
    | cons s ss =>
      rw [candListC] at hx
      rcases List.mem_append.mp hx with h | h
      · split_ifs at h with hcond
        · simp at h
          subst h
          exact ⟨List.mem_cons_self _ _, rfl, hcond.2⟩
        · simp at h
      · obtain ⟨h1, h2, h3⟩ := ih ss (i0 + 1) x h
        exact ⟨List.mem_cons_of_mem _ h1, h2, h3⟩

/-- Insertion does not invent elements. -/
lemma mem_insertDescBy (y : Nat × AccountBalanceChange × Nat) :
    ∀ (l : List (Nat × AccountBalanceChange × Nat)) (x : Nat × AccountBalanceChange × Nat),
      x ∈ insertDescBy y l → x = y ∨ x ∈ l := by
  intro l
  induction l with
  | nil =>
    intro x hx
    simp [insertDescBy] at hx
    exact Or.inl hx
  | cons z zs ih =>
    intro x hx
    rw [insertDescBy] at hx
    split_ifs at hx with hcmp
    · rcases List.mem_cons.mp hx with h | h
      · exact Or.inl h
      · exact Or.inr h
    · rcases List.mem_cons.mp hx with h | h
      · exact Or.inr (h ▸ List.mem_cons_self _ _)
      · rcases ih x h with h2 | h2
        · exact Or.inl h2
        · exact Or.inr (List.mem_cons_of_mem _ h2)

/-- Sorting does not invent elements. -/
lemma mem_sortDescBy :
    ∀ (l : List (Nat × AccountBalanceChange × Nat)) (x : Nat × AccountBalanceChange × Nat),
      x ∈ sortDescBy l → x ∈ l := by
  intro l
  induction l with
  | nil =>
    intro x hx
    simp [sortDescBy] at hx
  | cons z zs ih =>
    intro x hx
    rw [sortDescBy] at hx
    rcases mem_insertDescBy z (sortDescBy zs) x hx with h | h
    · exact h ▸ List.mem_cons_self _ _
    · exact List.mem_cons_of_mem _ (ih x h)

/-- Every record of the Pass B greedy loop instantiates one candidate, with
the candidate's amount. -/
lemma passBGreedy_mem (sig : String) (ts : Nat) (sender : AccountBalanceChange) :
    ∀ (cands : List (Nat × AccountBalanceChange × Nat)) (rem : Nat) (usedR : List Bool)
      (t : SolTransfer), t ∈ (passBGreedy sig ts sender cands rem usedR).2.2 →
      ∃ x ∈ cands,
        t = ⟨sig, sender.address, x.2.1.address, x.2.2, sender.index, x.2.1.index, ts⟩ := by
  intro cands
  induction cands with
  | nil =>
    intro rem usedR t ht
    simp [passBGreedy] at ht
  | cons c rest ih =>
    obtain ⟨j, r, recv⟩ := c
    intro rem usedR t ht
    rw [passBGreedy] at ht
    split_ifs at ht with h1 h2
    · simp at ht
    · dsimp only at ht
      rcases List.mem_cons.mp ht with h | h
      · exact ⟨(j, r, recv), List.mem_cons_self _ _, h⟩
      · obtain ⟨x, hx1, hx2⟩ := ih (rem - recv) (usedR.set j true) t h
        exact ⟨x, List.mem_cons_of_mem _ hx1, hx2⟩
    · obtain ⟨x, hx1, hx2⟩ := ih rem usedR t ht
      exact ⟨x, List.mem_cons_of_mem _ hx1, hx2⟩

/-- Every Pass B record is addressed to a receiver and carries exactly that
receiver's `as u64` delta, at least the dust floor. -/
lemma passB_mem (sig : String) (ts : Nat) (receivers : List AccountBalanceChange) :
    ∀ (pairs : List (Bool × AccountBalanceChange)) (usedR : List Bool) (t : SolTransfer),
      t ∈ (passB sig ts receivers pairs usedR).2.2 →
      ∃ r ∈ receivers, t.to_addr = r.address ∧ t.to_index = r.index ∧
        t.amount = recvAmtOf r ∧ 100000 ≤ t.amount := by
  intro pairs
  induction pairs with
  | nil =>
    intro usedR t ht
    simp [passB] at ht
  | cons p rest ih =>
    obtain ⟨us, s⟩ := p
    intro usedR t ht
    rw [passB] at ht
    split_ifs at ht with hus
    · exact ih usedR t ht
    · dsimp only at ht
      rcases List.mem_append.mp ht with h | h
      · obtain ⟨x, hx1, hx2⟩ := passBGreedy_mem sig ts s _ _ _ t h
        have hx3 := candListB_mem (sendAmtOf s) usedR receivers 0 x (mem_sortDescBy _ x hx1)
        subst hx2
        exact ⟨x.2.1, hx3.1, rfl, rfl, hx3.2.1, hx3.2.1 ▸ hx3.2.2⟩
      · exact ih _ t h

/-- Every record of the Pass C greedy loop goes to the fixed receiver with an
amount bounded by the remaining need at entry. -/
lemma passCGreedy_mem (sig : String) (ts : Nat) (receiver : AccountBalanceChange) :
    ∀ (cands : List (Nat × AccountBalanceChange × Nat)) (rem : Nat) (usedS : List Bool)
      (t : SolTransfer), t ∈ (passCGreedy sig ts receiver cands rem usedS).2.2 →
      t.to_addr = receiver.address ∧ t.to_index = receiver.index ∧ t.amount ≤ rem := by
  intro cands
  induction cands with
  | nil =>
    intro rem usedS t ht
    simp [passCGreedy] at ht
  | cons c rest ih =>
    obtain ⟨i, s, send⟩ := c
    intro rem usedS t ht
    rw [passCGreedy] at ht
    split_ifs at ht with h1
    · simp at ht
    · dsimp only at ht
      rcases List.mem_cons.mp ht with h | h
      · subst h
        exact ⟨rfl, rfl, Nat.min_le_right _ _⟩
      · have := ih _ _ t h
        exact ⟨this.1, this.2.1, le_trans this.2.2 (Nat.sub_le _ _)⟩

/-- Every Pass C record is addressed to a receiver of its pair list, with an
amount never exceeding that receiver's `as u64` delta. -/
lemma passC_mem (sig : String) (ts : Nat) (senders : List AccountBalanceChange) :
    ∀ (pairs : List (Bool × AccountBalanceChange)) (usedS : List Bool) (t : SolTransfer),
      t ∈ (passC sig ts senders pairs usedS).2.2 →
      ∃ p ∈ pairs, t.to_addr = p.2.address ∧ t.to_index = p.2.index ∧
        t.amount ≤ recvAmtOf p.2 := by
  intro pairs
  induction pairs with
  | nil =>
    intro usedS t ht
    simp [passC] at ht
  | cons p rest ih =>
    obtain ⟨ur, r⟩ := p
    intro usedS t ht
    rw [passC] at ht
    split_ifs at ht with hur
    · obtain ⟨p2, hp1, hp2⟩ := ih usedS t ht
      exact ⟨p2, List.mem_cons_of_mem _ hp1, hp2⟩
    · dsimp only at ht
      rcases List.mem_append.mp ht with h | h
      · have := passCGreedy_mem sig ts r _ _ _ t h
        exact ⟨(ur, r), List.mem_cons_self _ _, this.1, this.2.1, this.2.2⟩
      · obtain ⟨p2, hp1, hp2⟩ := ih _ t h
        exact ⟨p2, List.mem_cons_of_mem _ hp1, hp2⟩

/-- Every Pass D record is addressed to an unmatched large receiver of its
pair list and carries exactly that receiver's `as u64` delta. -/
lemma passD_mem (sig : String) (ts : Nat) (usedS : List Bool)
    (senders : List AccountBalanceChange) :
    ∀ (pairs : List (Bool × AccountBalanceChange)) (t : SolTransfer),
      t ∈ passD sig ts usedS senders pairs →
      ∃ p ∈ pairs, t.to_addr = p.2.address ∧ t.to_index = p.2.index ∧
        t.amount = recvAmtOf p.2 ∧ 1000000 < p.2.change := by
  intro pairs
  induction pairs with
  | nil =>
    intro t ht
    simp [passD] at ht
  | cons p rest ih =>
    obtain ⟨ur, r⟩ := p
    intro t ht
    rw [passD] at ht
    rcases List.mem_append.mp ht with h | h
    · split_ifs at h with hcond
      · rcases hfb : firstFallbackSender usedS senders with _ | s <;> rw [hfb] at h
        · simp at h
        · simp at h
          subst h
          exact ⟨(ur, r), List.mem_cons_self _ _, rfl, rfl, rfl, hcond.2⟩
      · simp at h
    · obtain ⟨p2, hp1, hp2⟩ := ih t h
      exact ⟨p2, List.mem_cons_of_mem _ hp1, hp2⟩

/-- Casting with `as u64` a positive `i64` delta bounded by `⌊(2^64-1)/11⌋` keeps the
bound. -/
lemma i64ToU64_le_bound (c : Int) (h1 : 0 < c) (h2 : c ≤ (1676976733973595601 : Int)) :
    i64ToU64 c ≤ 1676976733973595601 ∧ 0 < i64ToU64 c := by
  unfold i64ToU64 U64MOD
  omega

/-- Below the wrap bound, every Pass C greedy record is at least the dust
floor: the `remaining * 11` product does not wrap, so
`used_amount = min(send, remaining*11/10)` and the emitted
`min(used_amount, remaining)` all stay at or above `100_000`. -/
lemma passCGreedy_pos (sig : String) (ts : Nat) (receiver : AccountBalanceChange) :
    ∀ (cands : List (Nat × AccountBalanceChange × Nat)) (rem : Nat) (usedS : List Bool),
      rem ≤ 1676976733973595601 →
      (∀ x ∈ cands, 100000 ≤ x.2.2) →
      ∀ t ∈ (passCGreedy sig ts receiver cands rem usedS).2.2, 100000 ≤ t.amount := by
  intro cands
  induction cands with
  | nil =>
    intro rem usedS _ _ t ht
    simp [passCGreedy] at ht
  | cons c rest ih =>
    obtain ⟨i, s, send⟩ := c
    intro rem usedS hrem hc t ht
    rw [passCGreedy] at ht
    split_ifs at ht with h1
    · simp at ht
    · dsimp only at ht
      rcases List.mem_cons.mp ht with h | h
      · subst h
        have hsend : 100000 ≤ send := hc (i, s, send) (List.mem_cons_self _ _)
        have hrem1 : 100000 ≤ rem := Nat.not_lt.mp h1
        have hnw : wrap64 (rem * 11) = rem * 11 := by
          unfold wrap64 U64MOD
          omega
        have hw : rem ≤ wrap64 (rem * 11) / 10 := by
          rw [hnw]
          omega
        exact le_min (le_min hsend (le_trans hrem1 hw)) hrem1
      · exact ih _ _ (le_trans (Nat.sub_le _ _) hrem)
          (fun x hx => hc x (List.mem_cons_of_mem _ hx)) t h

/-- Below the wrap bound on receiver deltas, every Pass C record is at least
the dust floor. -/
lemma passC_pos (sig : String) (ts : Nat) (senders : List AccountBalanceChange) :
    ∀ (pairs : List (Bool × AccountBalanceChange)) (usedS : List Bool),
      (∀ p ∈ pairs, recvAmtOf p.2 ≤ 1676976733973595601) →
      ∀ t ∈ (passC sig ts senders pairs usedS).2.2, 100000 ≤ t.amount := by
  intro pairs
  induction pairs with
  | nil =>
    intro usedS _ t ht
    simp [passC] at ht
  | cons p rest ih =>
    obtain ⟨ur, r⟩ := p
    intro usedS hb t ht
    rw [passC] at ht
    split_ifs at ht with hur
    · exact ih usedS (fun q hq => hb q (List.mem_cons_of_mem _ hq)) t ht
    · dsimp only at ht
      rcases List.mem_append.mp ht with h | h
      · refine passCGreedy_pos sig ts r _ (recvAmtOf r) usedS
          (hb (ur, r) (List.mem_cons_self _ _)) ?_ t h
        intro x hx
        exact (candListC_mem usedS senders 0 x (mem_sortDescBy _ x hx)).2.2
      · exact ih _ (fun q hq => hb q (List.mem_cons_of_mem _ hq)) t h

/-- Every record of the native reconciler names a positive-delta account as
receiver and never exceeds that account's `as u64` delta. -/
lemma extract_receiver_bound (changes : List AccountBalanceChange) (sigb : List Nat)
    (ts : Nat) (t : SolTransfer) (ht : t ∈ extract_transfers changes sigb ts) :
    ∃ r ∈ changes, 0 < r.change ∧ t.to_addr = r.address ∧ t.to_index = r.index ∧
      t.amount ≤ recvAmtOf r := by
  unfold extract_transfers at ht
  dsimp only at ht
  split_ifs at ht with hemp
  · simp at ht
  · have hrc : ∀ r ∈ changes.filter (fun c => decide (0 < c.change)),
        r ∈ changes ∧ 0 < r.change := by
      intro r hr
      have hf := List.mem_filter.mp hr
      exact ⟨hf.1, by simpa using hf.2⟩
    rcases List.mem_append.mp ht with h | hD
    · rcases List.mem_append.mp h with h | hC
      · rcases List.mem_append.mp h with hA | hB
        · obtain ⟨r, hr, h1, h2, h3⟩ := passA_mem _ _ _ _ _ t hA
          exact ⟨r, (hrc r hr).1, (hrc r hr).2, h1, h2, le_of_eq h3⟩
        · obtain ⟨r, hr, h1, h2, h3, _⟩ := passB_mem _ _ _ _ _ t hB
          exact ⟨r, (hrc r hr).1, (hrc r hr).2, h1, h2, le_of_eq h3⟩
      · obtain ⟨p, hp, h1, h2, h3⟩ := passC_mem _ _ _ _ _ t hC
        obtain ⟨pb, pr⟩ := p
        have hz := (List.of_mem_zip hp).2
        exact ⟨pr, (hrc pr hz).1, (hrc pr hz).2, h1, h2, h3⟩
    · obtain ⟨p, hp, h1, h2, h3, _⟩ := passD_mem _ _ _ _ _ t hD
      obtain ⟨pb, pr⟩ := p
      have hz := (List.of_mem_zip hp).2
      exact ⟨pr, (hrc pr hz).1, (hrc pr hz).2, h1, h2, le_of_eq h3⟩

/-- Provided every positive delta stays below the `u64` wrap bound
`⌊(2^64-1)/11⌋`, the native reconciler never emits a zero amount. -/
lemma extract_amount_pos (changes : List AccountBalanceChange) (sigb : List Nat)
    (ts : Nat)
    (hbound : ∀ r ∈ changes, 0 < r.change → r.change ≤ (1676976733973595601 : Int)) :
    ∀ t ∈ extract_transfers changes sigb ts, t.amount ≠ 0 := by
  intro t ht
  unfold extract_transfers at ht
  dsimp only at ht
  split_ifs at ht with hemp
  · simp at ht
  · have hrc : ∀ r ∈ changes.filter (fun c => decide (0 < c.change)),
        0 < r.change ∧ r.change ≤ (1676976733973595601 : Int) := by
      intro r hr
      have hf := List.mem_filter.mp hr
      have hpos : 0 < r.change := by simpa using hf.2
      exact ⟨hpos, hbound r hf.1 hpos⟩
    rcases List.mem_append.mp ht with h | hD
    · rcases List.mem_append.mp h with h | hC
      · rcases List.mem_append.mp h with hA | hB
        · obtain ⟨r, hr, _, _, hamt⟩ := passA_mem _ _ _ _ _ t hA
          have := i64ToU64_le_bound r.change (hrc r hr).1 (hrc r hr).2
          rw [hamt]
          unfold recvAmtOf
          omega
        · obtain ⟨r, hr, _, _, _, hfloor⟩ := passB_mem _ _ _ _ _ t hB
          omega
      · have hfloor : 100000 ≤ t.amount := by
          refine passC_pos _ _ _ _ _ ?_ t hC
          intro p hp
          obtain ⟨pb, pr⟩ := p
          have hz := (List.of_mem_zip hp).2
          have := i64ToU64_le_bound pr.change (hrc pr hz).1 (hrc pr hz).2
          show recvAmtOf pr ≤ 1676976733973595601
          unfold recvAmtOf
          omega
        omega
    · obtain ⟨p, hp, _, _, hamt, _⟩ := passD_mem _ _ _ _ _ t hD
      obtain ⟨pb, pr⟩ := p
      dsimp only at hamt
      have hz := (List.of_mem_zip hp).2
      have := i64ToU64_le_bound pr.change (hrc pr hz).1 (hrc pr hz).2
      rw [hamt]
      unfold recvAmtOf
      omega

/-! ## Claim C1, amended -/

/-- Claim C1 amended: every record of either reconciler names a positive-delta
account as receiver, with the amount never exceeding that receiver's observed
delta; the amount equals the receiver-side delta for native Passes A, B and D
and for every token record other than burns (which have no receiving
account), while native Pass C records carry the sender-derived portion
`min(send, ⌊remaining*11/10⌋, remaining)`, which can be strictly below the
receiver's delta. -/
theorem C1_amended :
    (∀ (changes : List AccountBalanceChange) (sigb : List Nat) (ts : Nat)
        (t : SolTransfer), t ∈ extract_transfers changes sigb ts →
        ∃ r ∈ changes, 0 < r.change ∧ t.to_addr = r.address ∧ t.to_index = r.index ∧
          t.amount ≤ recvAmtOf r)
  ∧ (∀ (sig : String) (ts : Nat) (receivers ss : List AccountBalanceChange)
        (usedR : List Bool) (t : SolTransfer),
        t ∈ (passA sig ts receivers ss usedR).2.2 →
        ∃ r ∈ receivers, t.to_addr = r.address ∧ t.amount = recvAmtOf r)
  ∧ (∀ (sig : String) (ts : Nat) (receivers : List AccountBalanceChange)
        (pairs : List (Bool × AccountBalanceChange)) (usedR : List Bool) (t : SolTransfer),
        t ∈ (passB sig ts receivers pairs usedR).2.2 →
        ∃ r ∈ receivers, t.to_addr = r.address ∧ t.amount = recvAmtOf r)
  ∧ (∀ (sig : String) (ts : Nat) (usedS : List Bool)
        (senders : List AccountBalanceChange)
        (pairs : List (Bool × AccountBalanceChange)) (t : SolTransfer),
        t ∈ passD sig ts usedS senders pairs →
        ∃ p ∈ pairs, t.to_addr = p.2.address ∧ t.amount = recvAmtOf p.2)
  ∧ (∀ (addrs : List String) (preL postL : List TokenBalance) (sigb : List Nat)
        (ts : Nat) (po pro : List (Nat × String)) (mo : List String) (t : TokenTransfer),
        t ∈ analyze_token_balance_changes addrs preL postL sigb ts po pro mo →
        t.to_addr ≠ "BURN/DESTROY" →
        ∃ e ∈ tokenBalanceChanges preL postL po pro, 0 < e.change ∧
          t.amount = i64ToU64 e.change ∧
          t.to_addr = resolveAddress addrs e.account_index) := by
  refine ⟨?_, ?_, ?_, ?_, ?_⟩
  · intro changes sigb ts t ht
    exact extract_receiver_bound changes sigb ts t ht
  · intro sig ts receivers ss usedR t ht
    obtain ⟨r, hr, h1, _, h3⟩ := passA_mem sig ts receivers ss usedR t ht
    exact ⟨r, hr, h1, h3⟩
  · intro sig ts receivers pairs usedR t ht
    obtain ⟨r, hr, h1, _, h3, _⟩ := passB_mem sig ts receivers pairs usedR t ht
    exact ⟨r, hr, h1, h3⟩
  · intro sig ts usedS senders pairs t ht
    obtain ⟨p, hp, h1, _, h3, _⟩ := passD_mem sig ts usedS senders pairs t ht
    exact ⟨p, hp, h1, h3⟩
  · intro addrs preL postL sigb ts po pro mo t ht hneq
    obtain ⟨m, _, hpm⟩ := mem_analyze_token addrs preL postL sigb ts po pro mo t ht
    have hm := processMint_mem addrs (bs58encode sigb) ts m _ t hpm
    rcases hm.2.2.2 with ⟨hburn, _⟩ | ⟨c, hc, hpos, hamt, hto, _⟩
    · exact absurd hburn hneq
    · obtain ⟨e, he, _, hce⟩ := mem_mintGroup _ m c hc
      rw [hce] at hpos hamt hto
      exact ⟨e, he, hpos, hamt, hto⟩

/-- Balance changes of the specification's worked example: a 1-SOL sender and
a receiver of `999_990_000` lamports. -/
def c1wChanges : List AccountBalanceChange :=
  [⟨0, "A", -1000000000, 1000000000, 0⟩, ⟨1, "B", 999990000, 0, 999990000⟩]

/-- Witness for C1 amended: the Pass A record of the worked example is bounded
by the receiver's observed delta. -/
theorem C1_amended_witness :
    ∃ r ∈ c1wChanges, 0 < r.change ∧
      (⟨"", "A", "B", 999990000, 0, 1, 5⟩ : SolTransfer).to_addr = r.address ∧
      (⟨"", "A", "B", 999990000, 0, 1, 5⟩ : SolTransfer).to_index = r.index ∧
      (⟨"", "A", "B", 999990000, 0, 1, 5⟩ : SolTransfer).amount ≤ recvAmtOf r :=
  C1_amended.1 c1wChanges [] 5 _ (by decide)

/-! ## Claim C7, amended -/

/-- Claim C7 amended: no transfer record with `amount == 0` is emitted by the
token reconciler on any input, nor by the native reconciler provided every
positive delta is at most `⌊(2^64-1)/11⌋` lamports (beyond that bound Pass C's
`remaining * 11` computation wraps `u64` and a zero amount escapes, as the
counterexample shows). -/
theorem C7_amended :
    (∀ (changes : List AccountBalanceChange) (sigb : List Nat) (ts : Nat),
        (∀ r ∈ changes, 0 < r.change → r.change ≤ (1676976733973595601 : Int)) →
        ∀ t ∈ extract_transfers changes sigb ts, t.amount ≠ 0)
  ∧ (∀ (addrs : List String) (preL postL : List TokenBalance) (sigb : List Nat)
        (ts : Nat) (po pro : List (Nat × String)) (mo : List String),
        ∀ t ∈ analyze_token_balance_changes addrs preL postL sigb ts po pro mo,
        t.amount ≠ 0) := by
  refine ⟨?_, ?_⟩
  · intro changes sigb ts hbound t ht
    exact extract_amount_pos changes sigb ts hbound t ht
  · intro addrs preL postL sigb ts po pro mo t ht
    obtain ⟨m, _, hpm⟩ := mem_analyze_token addrs preL postL sigb ts po pro mo t ht
    have hm := processMint_mem addrs (bs58encode sigb) ts m _ t hpm
    rcases hm.2.2.2 with ⟨_, hpos, _⟩ | ⟨c, hc, hcpos, hamt, _, _⟩
    · omega
    · obtain ⟨e, he, _, hce⟩ := mem_mintGroup _ m c hc
      have hrange := tokenBalanceChanges_range preL postL po pro e he
      rw [hce] at hcpos hamt
      have hpos2 : 0 < e.change := hcpos
      have h2 := (i64ToU64_of_pos e.change hpos2 hrange.2.1).2
      rw [hamt]
      dsimp only
      omega

/-- Witness for C7 amended: the worked example's record has a nonzero
amount. -/
theorem C7_amended_witness :
    (⟨"", "A", "B", 999990000, 0, 1, 5⟩ : SolTransfer).amount ≠ 0 :=
  C7_amended.1 c1wChanges [] 5 (by decide) _ (by decide)

end SolanaLedger
